import Mathlib

/-
Verification of the conversation-search ingestion/chunking/indexing pipeline.

Shallow embedding of the TypeScript sources:
  - ChunkManager.ts        (message pairing, topic grouping, chunk emission)
  - ImportService.ts       (file import / reconciliation)
  - MessageRepository / SessionRepository / ProjectRepository (SQLite access, modelled
    as pure state transformers over an explicit database value)
  - JsonlParser (in VectorStore.ts) (transcript line parsing)
  - EmbeddingService.ts    (bounded-concurrency embedding batches)
  - ChunkIndexer.ts        (checkpointed indexing run)

Machine conventions used throughout:
  - JavaScript wall-clock reads (new Date().toISOString(), Date.now()) are passed in
    as explicit parameters named now.
  - new Date(s).getTime() is modelled by an explicit parameter dateParse : String → Int
    giving the epoch-millisecond value of a timestamp string.
  - JavaScript string length / slicing is by UTF-16 code units; the model uses Lean
    characters (code points), which agrees on all strings without supplementary-plane
    characters.  String comparison (< and >) is by UTF-16 code units and is modelled
    exactly by jsLt below.
  - Database rows are lists; UNIQUE constraints are modelled where the code relies on
    them (messages.uuid).  Columns never read by the modelled code paths
    (content_hash, token_count, created_at, updated_at) are omitted.
-/

/-- One row of the messages table / one parsed message, with the columns the
modelled code reads. -/
structure Message where
  uuid : String
  session_id : String
  role : String
  content : String
  timestamp : String
  model : Option String
  parent_uuid : Option String
  message_type : Option String
  cwd : Option String
deriving Repr, DecidableEq

/-- One row of the sessions table (models.ts Session), with the columns the
modelled code reads. -/
structure Session where
  id : String
  file_path : String
  project_id : Option Nat
  project_path : Option String
  cwd : Option String
  started_at : String
  ended_at : Option String
  message_count : Nat
  title : Option String
  summary : Option String
  is_title_auto_generated : Bool
  is_stub : Bool
deriving Repr, DecidableEq

/-- ChunkManager.ts ConversationChunk. -/
structure ConversationChunk where
  chunk_id : String
  session_id : String
  sequence_number : Nat
  chunk_type : String
  content : String
  user_message : Option String
  assistant_message : Option String
  timestamp : String
  processing_date : String
  project_path : Option String
  message_count : Nat
  previous_chunk : Option String
  next_chunk : Option String
  topic_group : Option String
  token_count : Nat
deriving Repr, DecidableEq

/-- ChunkManager.ts MessagePair. -/
structure MessagePair where
  userMessage : Option Message
  assistantMessage : Option Message
  timestamp : String
deriving Repr, DecidableEq

/-- ChunkManager.ts TopicGroup. -/
structure TopicGroup where
  topic : String
  pairs : List MessagePair
deriving Repr, DecidableEq

namespace ChunkManager

/-- The keyword vocabulary of extractTopic's regex, in alternation order. -/
def keywordVocabulary : List String :=
  ["react", "database", "git", "typescript", "python", "api", "server", "component",
   "function", "error", "bug", "feature", "implement", "create", "build", "fix",
   "test", "optimization", "performance", "security", "authentication", "deployment",
   "docker", "npm", "package", "library", "framework", "mcp", "claude", "hook",
   "skill", "command", "vector", "embedding", "search", "index", "sqlite", "chromadb"]

/-- A JavaScript regex word character ([A-Za-z0-9_]), as used by the boundary
assertion b in extractTopic's regex. -/
def isWordChar (c : Char) : Bool := c.isAlphanum || c == '_'

/-- The word-boundary test after a keyword: end of input or a non-word character. -/
def boundaryOk (rest : List Char) : Bool :=
  match rest with
  | [] => true
  | c :: _ => !isWordChar c

/-- The first vocabulary keyword (in alternation order) matching at the head of
the character list with a word boundary after it. -/
def matchKeywordAt (l : List Char) : Option String :=
  keywordVocabulary.findSome? fun k =>
    if k.toList.isPrefixOf l && boundaryOk (l.drop k.length) then some k else none

/-- Global regex scan of extractTopic: emit each vocabulary keyword occurring with
word boundaries on both sides, in order.  The Boolean tracks whether the previous
character is a word character (the b assertion before a keyword).  Advancing one
character at a time is equivalent to the JS engine advancing past each match: all
keyword characters are word characters, so no new match can begin inside or
immediately after a match. -/
def scanKeywords : Bool → List Char → List String
  | _, [] => []
  | prevWord, c :: cs =>
    match (if prevWord then none else matchKeywordAt (c :: cs)) with
    | some k => k :: scanKeywords (isWordChar c) cs
    | none => scanKeywords (isWordChar c) cs

/-- keywords.reduce in extractTopic: per-keyword occurrence counts, in first-occurrence
order (the enumeration order of a JS object with string keys). -/
def bumpKeyword (acc : List (String × Nat)) (k : String) : List (String × Nat) :=
  if acc.any (fun e => e.1 == k) then
    acc.map (fun e => if e.1 == k then (e.1, e.2 + 1) else e)
  else acc ++ [(k, 1)]

/-- Occurrence counts of the matched keywords. -/
def countKeywords (ks : List String) : List (String × Nat) := ks.foldl bumpKeyword []

/-- Object.entries(counts).sort((a,b) => b - a)[0][0]: JS sort is stable, so this is
the first entry (in insertion order) with the maximal count. -/
def topKeyword (counts : List (String × Nat)) (dflt : String) : String :=
  match counts with
  | [] => dflt
  | e :: es => (es.foldl (fun best x => if best.2 < x.2 then x else best) e).1

/-- text.toLowerCase(): per-character lowercasing; agrees with JS on the ASCII
range, which is all the keyword scan can match. -/
def jsToLower (l : List Char) : List Char := l.map Char.toLower

/-- ChunkManager.extractTopic. -/
def extractTopic (pair : MessagePair) : String :=
  let text :=
    ((pair.userMessage.map Message.content).getD "") ++ " " ++
    ((pair.assistantMessage.map Message.content).getD "")
  let keywords := scanKeywords false (jsToLower text.toList)
  if keywords.isEmpty then "general"
  else topKeyword (countKeywords keywords) "general"

/-- The fixed relatedness table of ChunkManager.isTopicSimilar. -/
def relatedTopicGroups : List (List String) :=
  [["react", "component", "typescript", "javascript"],
   ["database", "sqlite", "sql", "query", "chromadb"],
   ["git", "commit", "branch", "repository"],
   ["server", "api", "endpoint", "http"],
   ["test", "testing", "jest", "spec"],
   ["deployment", "docker", "container", "build"],
   ["mcp", "claude", "hook", "skill", "command"],
   ["vector", "embedding", "search", "index"]]

/-- ChunkManager.isTopicSimilar. -/
def isTopicSimilar (t1 t2 : String) : Bool :=
  t1 == t2 || relatedTopicGroups.any (fun g => g.contains t1 && g.contains t2)

/-- ChunkManager.getTimeGapMinutes(t1, t2) > 30, i.e.
|getTime(t2) - getTime(t1)| / 60000 > 30.  Division by 60000 is exact real division
here since |delta| > 1800000 iff |delta| / 60000 > 30, and the double rounding of
the quotient cannot cross the representable value 30. -/
def timeGapExceedsThirty (dateParse : String → Int) (t1 t2 : String) : Bool :=
  1800000 < (dateParse t2 - dateParse t1).natAbs

/-- Closing the mutable currentGroup: its pairs were accumulated most-recent-first. -/
def closeGroup (topic : String) (lastPair : MessagePair) (earlier : List MessagePair) :
    TopicGroup :=
  { topic := topic, pairs := (lastPair :: earlier).reverse }

/-- The loop of ChunkManager.detectTopicGroups, with the mutable currentGroup held
as (topic, most recent pair, earlier pairs in reverse order). -/
def detectLoop (dateParse : String → Int) (topic : String) (lastPair : MessagePair)
    (earlier : List MessagePair) : List MessagePair → List TopicGroup
  | [] => [closeGroup topic lastPair earlier]
  | p :: rest =>
    let pairTopic := extractTopic p
    if timeGapExceedsThirty dateParse lastPair.timestamp p.timestamp
        || !isTopicSimilar topic pairTopic then
      closeGroup topic lastPair earlier :: detectLoop dateParse pairTopic p [] rest
    else
      detectLoop dateParse topic p (lastPair :: earlier) rest

/-- ChunkManager.detectTopicGroups. -/
def detectTopicGroups (dateParse : String → Int) :
    List MessagePair → List TopicGroup
  | [] => []
  | p0 :: rest => detectLoop dateParse (extractTopic p0) p0 [] rest

/-- The pair timestamp assistantResponse?.timestamp || message.timestamp (the empty
string is falsy in JS). -/
def pairTimestampOf (userMsg : Message) (assistantMsg : Option Message) : String :=
  match assistantMsg with
  | some a => if a.timestamp == "" then userMsg.timestamp else a.timestamp
  | none => userMsg.timestamp

/-- ChunkManager.createMessagePairs.  A user message looks one message ahead for an
assistant response and consumes it when paired; non-user non-assistant roles are
passed over. -/
def createMessagePairs : List Message → List MessagePair
  | [] => []
  | [m] =>
    if m.role == "user" then
      [{ userMessage := some m, assistantMessage := none, timestamp := m.timestamp }]
    else if m.role == "assistant" then
      [{ userMessage := none, assistantMessage := some m, timestamp := m.timestamp }]
    else []
  | m :: n :: rest2 =>
    if m.role == "user" then
      if n.role == "assistant" then
        { userMessage := some m, assistantMessage := some n,
          timestamp := pairTimestampOf m (some n) } :: createMessagePairs rest2
      else
        { userMessage := some m, assistantMessage := none,
          timestamp := m.timestamp } :: createMessagePairs (n :: rest2)
    else if m.role == "assistant" then
      { userMessage := none, assistantMessage := some m,
        timestamp := m.timestamp } :: createMessagePairs (n :: rest2)
    else
      createMessagePairs (n :: rest2)

/-- truncated.lastIndexOf(c), -1 when absent. -/
def lastIndexOfChar (l : List Char) (c : Char) : Int :=
  l.enum.foldl (fun acc p => if p.2 == c then (p.1 : Int) else acc) (-1)

/-- ChunkManager.truncateIfNeeded.  The float comparison cutPoint > maxChars * 0.8
agrees with the integer comparison 4 * maxChars / 5 < cutPoint at the only call
site (maxChars = 10000, threshold 8000). -/
def truncateIfNeeded (text : String) (maxChars : Nat) : String :=
  if text.length ≤ maxChars then text
  else
    let truncated := text.toList.take maxChars
    let lastPeriod := lastIndexOfChar truncated '.'
    let lastNewline := lastIndexOfChar truncated '\n'
    let cutPoint := max lastPeriod lastNewline
    if (4 * maxChars : Int) / 5 < cutPoint then
      String.mk (truncated.take (cutPoint + 1).toNat) ++ "...[truncated]"
    else
      String.mk truncated ++ "...[truncated]"

/-- s.trim(): strip leading and trailing whitespace (the JS whitespace set
restricted to the ASCII whitespace that these strings can contain). -/
def jsTrim (s : String) : String :=
  String.mk (((s.toList.dropWhile Char.isWhitespace).reverse.dropWhile
    Char.isWhitespace).reverse)

/-- ChunkManager.formatChunkContent. -/
def formatChunkContent (pair : MessagePair) (topic : String) : String :=
  let content := "Topic: " ++ topic ++ "\n\n"
  let content :=
    match pair.userMessage with
    | some u => content ++ "User: " ++ truncateIfNeeded u.content 10000 ++ "\n\n"
    | none => content
  let content :=
    match pair.assistantMessage with
    | some a => content ++ "Assistant: " ++ truncateIfNeeded a.content 10000
    | none => content
  let content :=
    if 20000 < content.length then
      String.mk (content.toList.take 20000) ++ "...[truncated]"
    else content
  jsTrim content

/-- session.project_path || undefined (the empty string is falsy). -/
def normalizeProjectPath : Option String → Option String
  | some p => if p == "" then none else some p
  | none => none

/-- The chunk id template conv_(session id)_pair_(sequence number). -/
def chunkIdFor (sid : String) (seq : Nat) : String :=
  "conv_" ++ sid ++ "_pair_" ++ toString seq

/-- One chunk of the emission loop in processSession, at 1-based sequence number seq. -/
def mkChunk (sid : String) (projectPath : Option String) (now : String) (topic : String)
    (seq : Nat) (hasNext : Bool) (pair : MessagePair) : ConversationChunk :=
  { chunk_id := chunkIdFor sid seq
    session_id := sid
    sequence_number := seq
    chunk_type := "message_pair"
    content := formatChunkContent pair topic
    user_message := pair.userMessage.map Message.content
    assistant_message := pair.assistantMessage.map Message.content
    timestamp := pair.timestamp
    processing_date := now
    project_path := projectPath
    message_count :=
      (if pair.userMessage.isSome then 1 else 0) +
      (if pair.assistantMessage.isSome then 1 else 0)
    previous_chunk := if 1 < seq then some (chunkIdFor sid (seq - 1)) else none
    next_chunk := if hasNext then some (chunkIdFor sid (seq + 1)) else none
    topic_group := some topic
    token_count := 0 }

/-- Inner emission loop over one group's pairs.  seqPrev is the sequence counter
before this pair; a chunk has a next link when it is not the last pair of the
group (i < group.pairs.length - 1) or the group is not the last group. -/
def emitPairs (sid : String) (projectPath : Option String) (now : String)
    (topic : String) (isLastGroup : Bool) : Nat → List MessagePair → List ConversationChunk
  | _, [] => []
  | seqPrev, p :: rest =>
    mkChunk sid projectPath now topic (seqPrev + 1) (!rest.isEmpty || !isLastGroup) p ::
      emitPairs sid projectPath now topic isLastGroup (seqPrev + 1) rest

/-- Outer emission loop over the topic groups.  The source compares the current
group by object identity against the last element of the array; groups are freshly
allocated, so this is positional lastness. -/
def emitGroups (sid : String) (projectPath : Option String) (now : String) :
    Nat → List TopicGroup → List ConversationChunk
  | _, [] => []
  | seqPrev, g :: gs =>
    emitPairs sid projectPath now g.topic gs.isEmpty seqPrev g.pairs ++
      emitGroups sid projectPath now (seqPrev + g.pairs.length) gs

/-- ChunkManager.processSession.  now is the wall-clock instant read by
new Date().toISOString() for processing_date. -/
def processSession (dateParse : String → Int) (now : String) (session : Session)
    (messages : List Message) : List ConversationChunk :=
  let conversationMessages := messages.filter (fun m => m.role != "system")
  if conversationMessages.isEmpty then []
  else
    let messagePairs := createMessagePairs conversationMessages
    let topicGroups := detectTopicGroups dateParse messagePairs
    emitGroups session.id (normalizeProjectPath session.project_path) now 0 topicGroups

end ChunkManager

/-
JavaScript string comparison (s < t, s > t) is lexicographic over UTF-16 code
units.  jsLt models it exactly; it coincides with code-point order on strings
without supplementary-plane characters (all timestamps are ASCII).
-/

/-- The UTF-16 code units of one character (surrogate pair above U+FFFF). -/
def charUnits (c : Char) : List Nat :=
  if c.toNat < 65536 then [c.toNat]
  else [55296 + (c.toNat - 65536) / 1024, 56320 + (c.toNat - 65536) % 1024]

/-- The UTF-16 code units of a string. -/
def jsCodeUnits (s : String) : List Nat :=
  s.toList.foldr (fun c acc => charUnits c ++ acc) []

/-- Lexicographic strict order on code-unit lists. -/
def unitsLt : List Nat → List Nat → Bool
  | [], [] => false
  | [], _ :: _ => true
  | _ :: _, [] => false
  | a :: as, b :: bs => if a < b then true else if b < a then false else unitsLt as bs

/-- The JavaScript comparison s < t on strings. -/
def jsLt (s t : String) : Bool := unitsLt (jsCodeUnits s) (jsCodeUnits t)

/-
Database model.  Tables are row lists in insertion order; the UNIQUE constraint
on messages.uuid is modelled at its use site (MessageRepository.createMany).
The derived columns content_hash (an MD5 digest), token_count, file_path on
messages and created_at/updated_at are never read by the modelled code paths and
are omitted.
-/

/-- One row of the projects table, with the columns the modelled code reads. -/
structure Project where
  id : Nat
  path : String
  name : String
deriving Repr, DecidableEq

/-- The SQLite database state. -/
structure Db where
  sessions : List Session
  messages : List Message
  projects : List Project
  session_tags : List (String × Nat)
deriving Repr, DecidableEq

/-- SessionRepository.CreateSessionInput; absent optional fields are none. -/
structure CreateSessionInput where
  id : String
  file_path : String
  project_id : Option Nat
  project_path : Option String
  cwd : Option String
  started_at : String
  ended_at : Option String
  message_count : Option Nat
  title : Option String
  summary : Option String
  is_title_auto_generated : Option Bool
  is_stub : Option Bool
deriving Repr, DecidableEq

/-- SessionRepository.UpdateSessionInput; a none field means the column is left
untouched (the source checks !== undefined per field). -/
structure UpdateSessionInput where
  ended_at : Option String
  message_count : Option Nat
  title : Option String
  summary : Option String
  is_title_auto_generated : Option Bool
deriving Repr, DecidableEq

namespace SessionRepository

/-- SessionRepository.exists. -/
def sessionExists (db : Db) (id : String) : Bool :=
  db.sessions.any (fun r => r.id == id)

/-- SessionRepository.findById. -/
def findById (db : Db) (id : String) : Option Session :=
  db.sessions.find? (fun r => r.id == id)

/-- SessionRepository.isStub. -/
def isStub (db : Db) (id : String) : Bool :=
  match findById db id with
  | some r => r.is_stub
  | none => false

/-- The row INSERTed by SessionRepository.create (?? null and ternary defaults). -/
def rowOfInput (input : CreateSessionInput) : Session :=
  { id := input.id
    file_path := input.file_path
    project_id := input.project_id
    project_path := input.project_path
    cwd := input.cwd
    started_at := input.started_at
    ended_at := input.ended_at
    message_count := input.message_count.getD 0
    title := input.title
    summary := input.summary
    is_title_auto_generated := input.is_title_auto_generated.getD false
    is_stub := input.is_stub.getD false }

/-- SessionRepository.create.  The sessions primary key would reject a duplicate
id; the modelled call sites only create sessions that do not exist. -/
def create (db : Db) (input : CreateSessionInput) : Db :=
  { db with sessions := db.sessions ++ [rowOfInput input] }

/-- SessionRepository.updateFromImport: overwrite the import metadata columns and
clear is_stub; title, summary and tag rows are not touched. -/
def updateFromImport (db : Db) (id : String) (input : CreateSessionInput) : Db :=
  { db with
    sessions := db.sessions.map fun r =>
      if r.id == id then
        { r with
          file_path := input.file_path
          project_id := input.project_id
          project_path := input.project_path
          cwd := input.cwd
          started_at := input.started_at
          ended_at := input.ended_at
          message_count := input.message_count.getD 0
          is_stub := false }
      else r }

/-- The SET clause of SessionRepository.update applied to one row. -/
def applyUpdate (r : Session) (input : UpdateSessionInput) : Session :=
  { r with
    ended_at := match input.ended_at with | some v => some v | none => r.ended_at
    message_count := input.message_count.getD r.message_count
    title := match input.title with | some v => some v | none => r.title
    summary := match input.summary with | some v => some v | none => r.summary
    is_title_auto_generated :=
      input.is_title_auto_generated.getD r.is_title_auto_generated }

/-- SessionRepository.update. -/
def update (db : Db) (id : String) (input : UpdateSessionInput) : Db :=
  { db with sessions := db.sessions.map fun r => if r.id == id then applyUpdate r input else r }

/-- The tag ids associated with a session in session_tags. -/
def sessionTagIds (db : Db) (id : String) : List Nat :=
  (db.session_tags.filter (fun e => e.1 == id)).map (fun e => e.2)

end SessionRepository

/-- MessageRepository.CreateMessageInput (file_path and token_count, always absent
at the modelled call site, are omitted). -/
structure CreateMessageInput where
  uuid : String
  session_id : String
  role : String
  content : String
  timestamp : String
  model : Option String
  parent_uuid : Option String
  message_type : Option String
  cwd : Option String
deriving Repr, DecidableEq

namespace MessageRepository

/-- The row INSERTed by MessageRepository.create. -/
def msgRowOfInput (input : CreateMessageInput) : Message :=
  { uuid := input.uuid
    session_id := input.session_id
    role := input.role
    content := input.content
    timestamp := input.timestamp
    model := input.model
    parent_uuid := input.parent_uuid
    message_type := input.message_type
    cwd := input.cwd }

/-- One iteration of MessageRepository.createMany: the INSERT throws on the
UNIQUE(uuid) constraint, is caught, and the row is skipped; otherwise created is
incremented.  The surrounding transaction never aborts on duplicates. -/
def createManyStep (acc : Nat × Db) (input : CreateMessageInput) : Nat × Db :=
  if acc.2.messages.any (fun m => m.uuid == input.uuid) then acc
  else (acc.1 + 1, { acc.2 with messages := acc.2.messages ++ [msgRowOfInput input] })

/-- MessageRepository.createMany: bulk insert returning the number of rows
actually inserted. -/
def createMany (db : Db) (inputs : List CreateMessageInput) : Nat × Db :=
  inputs.foldl createManyStep (0, db)

/-- The message rows stored for one session (messages WHERE session_id = ?). -/
def messagesOf (db : Db) (sessionId : String) : List Message :=
  db.messages.filter (fun m => m.session_id == sessionId)

end MessageRepository

namespace ProjectRepository

/-- ProjectRepository.findByPath. -/
def findByPath (db : Db) (path : String) : Option Project :=
  db.projects.find? (fun p => p.path == path)

/-- The next AUTOINCREMENT id for projects. -/
def nextProjectId (db : Db) : Nat :=
  (db.projects.map Project.id).foldl max 0 + 1

/-- path.split(sep) over characters: "a//b" gives ["a", "", "b"]. -/
def splitSegments : List Char → List (List Char)
  | [] => [[]]
  | c :: cs =>
    match splitSegments cs with
    | [] => [[c]]
    | s :: ss => if c == '/' then [] :: s :: ss else (c :: s) :: ss

/-- The project name of ProjectRepository.getOrCreate: the last non-empty path
segment, or "Unknown". -/
def nameFromPath (path : String) : String :=
  match ((splitSegments path.toList).filter (fun s => !s.isEmpty)).getLast? with
  | some seg => String.mk seg
  | none => "Unknown"

/-- ProjectRepository.getOrCreate: find the project by path or insert a fresh row. -/
def getOrCreate (db : Db) (path : String) : Project × Db :=
  match findByPath db path with
  | some p => (p, db)
  | none =>
    let p : Project := { id := nextProjectId db, path := path, name := nameFromPath path }
    (p, { db with projects := db.projects ++ [p] })

end ProjectRepository

/-- JsonlParser.ParsedMessage.  The source builds session_id from a non-null
assertion on the tracked session id; a null slips through as the empty string
here (no modelled input exercises it). -/
structure ParsedMessage where
  uuid : String
  session_id : String
  role : String
  content : String
  timestamp : String
  model : Option String
  parent_uuid : Option String
  message_type : Option String
  cwd : Option String
deriving Repr, DecidableEq

/-- JsonlParser.ParsedSession. -/
structure ParsedSession where
  id : String
  file_path : String
  project_path : Option String
  cwd : Option String
  title : Option String
  started_at : Option String
  ended_at : Option String
  messages : List ParsedMessage
deriving Repr, DecidableEq

namespace ImportService

/-- The project lookup of importFile (lines 120-125): when a ProjectRepository
is available and the parsed session has a project path, resolve-or-create the
project; returns (projectId, database). -/
def resolveProject (db : Db) (session : ParsedSession) (useProjectRepo : Bool) :
    Option Nat × Db :=
  match (if useProjectRepo then session.project_path else none) with
  | some p =>
    let r := ProjectRepository.getOrCreate db p
    (some r.1.id, r.2)
  | none => (none, db)

/-- The sessionInput object importFile builds (?? defaults applied). -/
def sessionInputOf (session : ParsedSession) (projectId : Option Nat) (now : String) :
    CreateSessionInput :=
  { id := session.id
    file_path := session.file_path
    project_id := projectId
    project_path := session.project_path
    cwd := session.cwd
    started_at := session.started_at.getD now
    ended_at := session.ended_at
    message_count := some session.messages.length
    title := session.title
    summary := none
    is_title_auto_generated := some session.title.isSome
    is_stub := none }

/-- The create-or-update step of importFile: a stub is promoted in place, a new
session is created, an existing non-stub session's metadata is left as-is.  The
stub/existing tests were read from db before the project lookup. -/
def sessionStep (db dbProj : Db) (session : ParsedSession)
    (input : CreateSessionInput) : Db :=
  if SessionRepository.sessionExists db session.id &&
      SessionRepository.isStub db session.id then
    SessionRepository.updateFromImport dbProj session.id input
  else if !SessionRepository.sessionExists db session.id then
    SessionRepository.create dbProj input
  else dbProj

/-- The CreateMessageInput list importFile builds from the parsed messages. -/
def messageInputsOf (session : ParsedSession) : List CreateMessageInput :=
  session.messages.map fun msg =>
    { uuid := msg.uuid
      session_id := msg.session_id
      role := msg.role
      content := msg.content
      timestamp := msg.timestamp
      model := msg.model
      parent_uuid := msg.parent_uuid
      message_type := msg.message_type
      cwd := msg.cwd }

/-- ImportService.importFile after parsing, as a database transition.  parsed is
the JsonlParser.parseFile result (none when the file failed to parse); now is the
wall-clock read new Date().toISOString() used when the parsed session has no
started_at; useProjectRepo is whether a ProjectRepository was supplied.  Returns
(returned value, new database): some n = imported n messages, some 0 = skipped,
none = parse failure. -/
def importFile (db : Db) (parsed : Option ParsedSession) (skipExisting : Bool)
    (useProjectRepo : Bool) (now : String) : Option Nat × Db :=
  match parsed with
  | none => (none, db)
  | some session =>
    let existingSession := SessionRepository.sessionExists db session.id
    let stub := existingSession && SessionRepository.isStub db session.id
    if skipExisting && existingSession && !stub then (some 0, db)
    else
      let pr := resolveProject db session useProjectRepo
      let db2 := sessionStep db pr.2 session (sessionInputOf session pr.1 now)
      let cm := MessageRepository.createMany db2 (messageInputsOf session)
      let db4 := SessionRepository.update cm.2 session.id
        { ended_at := none
          message_count := some cm.1
          title := none
          summary := none
          is_title_auto_generated := none }
      (some cm.1, db4)

/-- ImportService.ImportResult (duration, a wall-clock difference, is omitted). -/
structure ImportResult where
  totalFiles : Nat
  imported : Nat
  skipped : Nat
  failed : Nat
  totalMessages : Nat
  errors : List (String × String)
deriving Repr, DecidableEq

/-- One iteration of the importAll loop over a discovered file.  outcome models
the awaited importFile call: ok v is its return value, error e a thrown error
(whose message is pushed with the file path).  Progress callbacks do not affect
the result. -/
def importAllStep (acc : ImportResult) (file : String)
    (outcome : Except String (Option Nat)) : ImportResult :=
  match outcome with
  | .error e => { acc with failed := acc.failed + 1, errors := acc.errors ++ [(file, e)] }
  | .ok none => { acc with skipped := acc.skipped + 1 }
  | .ok (some n) =>
    if n = 0 then { acc with skipped := acc.skipped + 1 }
    else { acc with imported := acc.imported + 1, totalMessages := acc.totalMessages + n }

/-- ImportService.importAll over the discovered file list, with the per-file
importFile outcome supplied by runImport. -/
def importAll (files : List String) (runImport : String → Except String (Option Nat)) :
    ImportResult :=
  files.foldl (fun acc f => importAllStep acc f (runImport f))
    { totalFiles := files.length, imported := 0, skipped := 0, failed := 0,
      totalMessages := 0, errors := [] }

end ImportService

namespace JsonlParser

/-- JavaScript truthiness of an optional string: present and non-empty. -/
def strTruthy : Option String → Bool
  | none => false
  | some s => s ≠ ""

/-- A tool_result content entry: a plain string or an object with an optional
text field. -/
inductive RawResultItem where
  | str (s : String)
  | obj (text : Option String)
deriving Repr, DecidableEq

/-- The content field of a tool_result block. -/
inductive RawResultContent where
  | str (s : String)
  | arr (items : List RawResultItem)
  | other
deriving Repr, DecidableEq

/-- One content block of a structured message body. -/
inductive RawBlock where
  | str (s : String)
  | typed (ty : String) (text : Option String) (name : Option String)
      (rcontent : RawResultContent)
deriving Repr, DecidableEq

/-- The content field of a message body: plain string, block array, or other JSON. -/
inductive RawContent where
  | str (s : String)
  | blocks (bs : List RawBlock)
  | other
deriving Repr, DecidableEq

/-- The message field of a JSONL record. -/
structure RawMessageBody where
  role : Option String
  model : Option String
  content : RawContent
deriving Repr, DecidableEq

/-- One successfully JSON-parsed JSONL record (types/models.ts RawJsonlMessage);
absent fields are none, isMeta is its truthiness. -/
structure RawJsonlMessage where
  type : Option String
  isMeta : Bool
  summary : Option String
  sessionId : Option String
  cwd : Option String
  timestamp : Option String
  uuid : Option String
  parentUuid : Option String
  message : Option RawMessageBody
deriving Repr, DecidableEq

/-- One line of a JSONL file: bad is a blank line or one JSON.parse rejects
(both are skipped); record is a parsed record. -/
inductive RawLine where
  | bad
  | record (r : RawJsonlMessage)
deriving Repr, DecidableEq

/-- The text extracted from one content block in parseMessage. -/
def blockText : RawBlock → String
  | .str s => s
  | .typed ty text name rcontent =>
    if ty == "text" then text.getD ""
    else if ty == "tool_use" then
      "[Tool Use: " ++
        (match name with
         | some n => if n == "" then "unknown" else n
         | none => "unknown") ++ "]"
    else if ty == "tool_result" then
      match rcontent with
      | .str s => s
      | .arr items =>
        String.intercalate "\n"
          (items.map fun it =>
            match it with
            | .str s => s
            | .obj t => t.getD "")
      | .other => ""
    else ""

/-- The content string assembled by parseMessage: string content as-is, block
arrays mapped through blockText with empty results filtered out (filter(Boolean))
and joined with newlines, anything else the initial empty string. -/
def contentText : RawContent → String
  | .str s => s
  | .blocks bs => String.intercalate "\n" ((bs.map blockText).filter (fun s => s ≠ ""))
  | .other => ""

/-- JsonlParser.parseMessage.  sessionId is the session id tracked so far (the
source passes it with a non-null assertion). -/
def parseMessage (raw : RawJsonlMessage) (sessionId : Option String) :
    Option ParsedMessage :=
  if !strTruthy raw.uuid || !strTruthy raw.timestamp then none
  else
    let role0 := if raw.type == some "assistant" then "assistant" else "user"
    let role :=
      match raw.message with
      | some body =>
        match body.role with
        | some r => if r == "" then role0 else r
        | none => role0
      | none => role0
    let model :=
      match raw.message with
      | some body => body.model
      | none => none
    let content :=
      match raw.message with
      | some body => contentText body.content
      | none => ""
    if ChunkManager.jsTrim content == "" then none
    else
      some
        { uuid := raw.uuid.getD ""
          session_id := sessionId.getD ""
          role := role
          content := content
          timestamp := raw.timestamp.getD ""
          model := model
          parent_uuid := raw.parentUuid
          message_type := raw.type
          cwd := raw.cwd }

/-- JsonlParser.extractProjectPath: both branches return cwd unchanged. -/
def extractProjectPath (cwd : String) : String := cwd

/-- content.replace of every whitespace run by one space.  The Boolean tracks
whether the previous character was part of a run. -/
def collapseWsAux (prevWs : Bool) : List Char → List Char
  | [] => []
  | c :: cs =>
    if c.isWhitespace then
      if prevWs then collapseWsAux true cs else ' ' :: collapseWsAux true cs
    else c :: collapseWsAux false cs

/-- JsonlParser.generateTitle. -/
def generateTitle (content : String) : Option String :=
  if content == "" then none
  else
    let cleaned :=
      String.mk (((ChunkManager.jsTrim
        (String.mk (collapseWsAux false content.toList))).toList).take 100)
    if 80 < cleaned.length then some (String.mk (cleaned.toList.take 80) ++ "...")
    else if cleaned == "" then none
    else some cleaned

/-- The mutable locals of the parseFile line loop. -/
structure ParseState where
  messages : List ParsedMessage
  sessionId : Option String
  title : Option String
  cwd : Option String
  projectPath : Option String
  startedAt : Option String
  endedAt : Option String
deriving Repr, DecidableEq

/-- The initial parseFile state. -/
def initState : ParseState :=
  { messages := [], sessionId := none, title := none, cwd := none,
    projectPath := none, startedAt := none, endedAt := none }

/-- Extract session metadata from the first message (if (!sessionId && parsed.sessionId)). -/
def captureSessionId (st : ParseState) (r : RawJsonlMessage) : ParseState :=
  if !strTruthy st.sessionId && strTruthy r.sessionId then
    { st with sessionId := r.sessionId }
  else st

/-- Capture cwd and derive the project path from it (if (!cwd && parsed.cwd)). -/
def captureCwd (st : ParseState) (r : RawJsonlMessage) : ParseState :=
  if !strTruthy st.cwd && strTruthy r.cwd then
    { st with cwd := r.cwd, projectPath := r.cwd.map extractProjectPath }
  else st

/-- if (!startedAt || parsed.timestamp < startedAt): keep the strictly smaller
value as startedAt. -/
def trackStarted (st : ParseState) (ts : String) : ParseState :=
  match st.startedAt with
  | none => { st with startedAt := some ts }
  | some a => if jsLt ts a then { st with startedAt := some ts } else st

/-- if (!endedAt || parsed.timestamp > endedAt): keep the strictly larger value
as endedAt. -/
def trackEnded (st : ParseState) (ts : String) : ParseState :=
  match st.endedAt with
  | none => { st with endedAt := some ts }
  | some a => if jsLt a ts then { st with endedAt := some ts } else st

/-- Track timestamps for session duration (if (parsed.timestamp)). -/
def trackTimestamps (st : ParseState) (r : RawJsonlMessage) : ParseState :=
  if strTruthy r.timestamp then
    trackEnded (trackStarted st (r.timestamp.getD "")) (r.timestamp.getD "")
  else st

/-- Parse user and assistant messages, retaining the result when parseMessage
keeps it. -/
def retainMessage (st : ParseState) (r : RawJsonlMessage) : ParseState :=
  if r.type == some "user" || r.type == some "assistant" then
    match parseMessage r st.sessionId with
    | some m => { st with messages := st.messages ++ [m] }
    | none => st
  else st

/-- The body of the parseFile loop for one successfully parsed record, in source
order: summary records set the title and stop; system/meta records stop before
any timestamp tracking; then session id and cwd capture, started/ended tracking
over the record's timestamp, and user/assistant message retention. -/
def processRecord (st : ParseState) (r : RawJsonlMessage) : ParseState :=
  if r.type == some "summary" then { st with title := r.summary }
  else if r.type == some "system" || r.isMeta then st
  else retainMessage (trackTimestamps (captureCwd (captureSessionId st r) r) r) r

/-- JsonlParser.parseFile after reading the file's lines (readLines and read
failures, which yield null, are outside the model). -/
def parseLines (filePath : String) (lines : List RawLine) : Option ParsedSession :=
  if lines.isEmpty then none
  else
    let st := lines.foldl
      (fun st l =>
        match l with
        | .bad => st
        | .record r => processRecord st r) initState
    if !strTruthy st.sessionId || st.messages.isEmpty then none
    else
      let title :=
        if !strTruthy st.title && !st.messages.isEmpty then
          match st.messages.find? (fun m => m.role == "user") with
          | some fm => generateTitle fm.content
          | none => st.title
        else st.title
      some
        { id := st.sessionId.getD ""
          file_path := filePath
          project_path := st.projectPath
          cwd := st.cwd
          title := title
          started_at := st.startedAt
          ended_at := st.endedAt
          messages := st.messages }

/-- The timestamps the parseFile loop tracks for started_at/ended_at: those of
successfully parsed, non-blank records that are not summary and not system/meta,
whatever their kind or later fate (retained or dropped). -/
def trackedTimestamps (lines : List RawLine) : List String :=
  lines.foldr
    (fun l acc =>
      match l with
      | .bad => acc
      | .record r =>
        if r.type == some "summary" then acc
        else if r.type == some "system" || r.isMeta then acc
        else if strTruthy r.timestamp then r.timestamp.getD "" :: acc
        else acc) []

end JsonlParser

namespace EmbeddingService

/-- EmbeddingService.EmbeddingResult.  Vector entries are opaque numbers coming
from the embedding server; only the zero substitution is ever computed. -/
structure EmbeddingResult where
  embedding : List Int
  token_count : Nat
deriving Repr, DecidableEq

/-- EmbeddingService.estimateTokens: Math.ceil(text.length / 4). -/
def estimateTokens (text : String) : Nat := (text.length + 3) / 4

/-- EmbeddingService.embed.  embedApi models the HTTP round trip: ok v is a
successful response carrying vector v, error is a thrown failure (non-ok
response or network error). -/
def embed (embedApi : String → Except String (List Int)) (text : String) :
    Except String EmbeddingResult :=
  (embedApi text).map fun v => { embedding := v, token_count := estimateTokens text }

/-- The zero substitution of the embedBatch catch: a 768-dimensional zero vector
with token_count 0. -/
def zeroEmbedding : EmbeddingResult :=
  { embedding := List.replicate 768 0, token_count := 0 }

/-- What one worker iteration stores for one text: the embed result, or the zero
substitution when embed threw. -/
def runEmbed (embedApi : String → Except String (List Int)) (text : String) :
    EmbeddingResult :=
  match embed embedApi text with
  | .ok r => r
  | .error _ => zeroEmbedding

/-- The shared state of the embedBatch worker pool: the shared queue cursor, the
indices taken but not yet written (in-flight awaits), and the pre-sized results
array (none = still unset). -/
structure BatchState where
  cursor : Nat
  pending : List Nat
  results : List (Option EmbeddingResult)
deriving Repr, DecidableEq

/-- The state before any worker runs. -/
def initBatchState (n : Nat) : BatchState :=
  { cursor := 0, pending := [], results := List.replicate n none }

/-- Math.min(concurrency, texts.length): the number of workers launched. -/
def numWorkers (concurrency : Nat) (texts : List String) : Nat :=
  min concurrency texts.length

/-- One scheduler step of embedBatch.  take: an idle worker atomically reads and
increments the cursor (single-threaded between awaits), bounded by the worker
count; finish: an in-flight embed call for index i completes (in any order) and
its result is written to slot i. -/
inductive BatchStep (embedApi : String → Except String (List Int))
    (texts : List String) (workers : Nat) : BatchState → BatchState → Prop
  | take (s : BatchState) (h1 : s.cursor < texts.length)
      (h2 : s.pending.length < workers) :
      BatchStep embedApi texts workers s
        { cursor := s.cursor + 1, pending := s.cursor :: s.pending,
          results := s.results }
  | finish (s : BatchState) (i : Nat) (h : i ∈ s.pending) :
      BatchStep embedApi texts workers s
        { cursor := s.cursor, pending := s.pending.erase i,
          results := s.results.set i (some (runEmbed embedApi (texts.getD i ""))) }

/-- The states a run of embedBatch can reach from the initial state. -/
def batchReaches (embedApi : String → Except String (List Int))
    (texts : List String) (workers : Nat) (s : BatchState) : Prop :=
  Relation.ReflTransGen (BatchStep embedApi texts workers)
    (initBatchState texts.length) s

/-- Promise.all has resolved: the queue is exhausted and no call is in flight. -/
def batchDone (texts : List String) (s : BatchState) : Prop :=
  s.cursor = texts.length ∧ s.pending = []

/-- The scheduler invariant of embedBatch: the results array keeps its size, the
cursor never passes the queue end, every in-flight index is unique and was taken
(it is below the cursor), and slot i is written exactly when index i was taken
and its call has completed — in which case it holds that call's result. -/
def batchInv (embedApi : String → Except String (List Int)) (texts : List String)
    (s : BatchState) : Prop :=
  s.results.length = texts.length ∧
  s.cursor ≤ texts.length ∧
  s.pending.Nodup ∧
  (∀ i ∈ s.pending, i < s.cursor) ∧
  (∀ i : Nat, i < texts.length →
    s.results[i]? =
      some (if i < s.cursor ∧ i ∉ s.pending
        then some (runEmbed embedApi (texts.getD i "")) else none))

end EmbeddingService

namespace ChunkIndexer

/-- VectorStore.ChunkDocument with its metadata record inlined. -/
structure ChunkDocument where
  id : String
  content : String
  session_id : String
  sequence_number : Nat
  chunk_type : String
  timestamp : String
  project_path : String
  message_count : Nat
  previous_chunk : String
  next_chunk : String
  topic_group : String
  token_count : Nat
  processing_date : String
deriving Repr, DecidableEq

/-- ChunkIndexer.chunkToDocument (x || '' collapses both a missing and an empty
optional to the empty string). -/
def chunkToDocument (c : ConversationChunk) : ChunkDocument :=
  { id := c.chunk_id
    content := c.content
    session_id := c.session_id
    sequence_number := c.sequence_number
    chunk_type := c.chunk_type
    timestamp := c.timestamp
    project_path := c.project_path.getD ""
    message_count := c.message_count
    previous_chunk := c.previous_chunk.getD ""
    next_chunk := c.next_chunk.getD ""
    topic_group := c.topic_group.getD ""
    token_count := c.token_count
    processing_date := c.processing_date }

/-- ChunkIndexer's Checkpoint (its timestamp, a wall-clock string never read
back by the modelled logic, is omitted). -/
structure Checkpoint where
  lastProcessedSessionId : Option String
  processedCount : Nat
  totalSessions : Nat
deriving Repr, DecidableEq

/-- ChunkIndexer.ChunkIndexingResult (duration, a wall-clock difference, is
omitted). -/
structure ChunkIndexingResult where
  totalSessions : Nat
  processedSessions : Nat
  skippedSessions : Nat
  totalChunks : Nat
  errors : Nat
deriving Repr, DecidableEq

/-- The collaborators of a ChunkIndexer run: messageRepo.findBySession,
vectorStore.upsertChunks (true = resolved, false = rejected),
fs.writeFileSync on the checkpoint path (true = wrote, false = threw), and the
ambient clock/date parsing for ChunkManager. -/
structure IndexerEnv where
  findBySession : String → List Message
  upsertChunks : List ChunkDocument → Bool
  writeCheckpoint : Checkpoint → Bool
  dateParse : String → Int
  now : String

/-- ChunkIndexer.saveCheckpoint over the checkpoint-file content: the write is
wrapped in try/catch, so on failure the error is logged and swallowed and the
file keeps its previous content. -/
def saveCheckpoint (env : IndexerEnv) (slot : Option Checkpoint) (cp : Checkpoint) :
    Option Checkpoint :=
  if env.writeCheckpoint cp then some cp else slot

/-- The per-session body of the indexAll batch loop: sessions with no messages or
no chunks are counted skipped; an upsert rejection adds the session's chunk count
to errors and moves on; otherwise the session counts as processed. -/
def processOneSession (env : IndexerEnv) (session : Session)
    (acc : ChunkIndexingResult) : ChunkIndexingResult :=
  let messages := env.findBySession session.id
  if messages.isEmpty then { acc with skippedSessions := acc.skippedSessions + 1 }
  else
    let chunks := ChunkManager.processSession env.dateParse env.now session messages
    if chunks.isEmpty then { acc with skippedSessions := acc.skippedSessions + 1 }
    else
      let sessionChunks := chunks.map chunkToDocument
      if env.upsertChunks sessionChunks then
        { acc with
          processedSessions := acc.processedSessions + 1
          totalChunks := acc.totalChunks + chunks.length }
      else { acc with errors := acc.errors + sessionChunks.length }

/-- The outer batch loop of indexAll: process batchSize sessions, then persist a
checkpoint naming the batch's last session.  fuel bounds the recursion by the
number of remaining sessions (each batch consumes at least one, so fuel =
remaining length is never exhausted); taking the head explicitly also renders the
source's batch[batch.length - 1] total, faithfully for batchSize >= 1 (for
batchSize = 0 the source throws on its first batch; no theorem uses 0). -/
def indexBatches (env : IndexerEnv) (batchSize : Nat) :
    Nat → List Session → Option Checkpoint → ChunkIndexingResult →
      ChunkIndexingResult × Option Checkpoint
  | _, [], slot, acc => (acc, slot)
  | 0, _ :: _, slot, acc => (acc, slot)
  | fuel + 1, s :: rest, slot, acc =>
    let batch := s :: rest.take (batchSize - 1)
    let acc2 := batch.foldl (fun a sess => processOneSession env sess a) acc
    let lastSession := batch.getLast (by simp)
    let slot2 := saveCheckpoint env slot
      { lastProcessedSessionId := some lastSession.id
        processedCount := acc2.processedSessions
        totalSessions := acc2.totalSessions }
    indexBatches env batchSize fuel (rest.drop (batchSize - 1)) slot2 acc2

/-- ChunkIndexer's indexing options: the batch size, the fresh-start flag, and
the content of the checkpoint file when the run starts (none = missing or
unparseable). -/
structure ChunkIndexingOptions where
  batchSize : Nat
  freshStart : Bool
  checkpointFile : Option Checkpoint
deriving Repr, DecidableEq

/-- ChunkIndexer.indexAll over a session list (sessionRepo.findAll()).  Returns
the result and the final checkpoint-file content (the checkpoint is deleted when
the loop exhausts the session list). -/
def indexAll (env : IndexerEnv) (allSessions : List Session)
    (opts : ChunkIndexingOptions) : ChunkIndexingResult × Option Checkpoint :=
  let resInit : ChunkIndexingResult :=
    { totalSessions := allSessions.length, processedSessions := 0,
      skippedSessions := 0, totalChunks := 0, errors := 0 }
  let startState :=
    if !opts.freshStart then
      match opts.checkpointFile with
      | some cp =>
        match cp.lastProcessedSessionId with
        | some lid =>
          match allSessions.findIdx? (fun s => s.id == lid) with
          | some idx =>
            (idx + 1, { resInit with processedSessions := cp.processedCount })
          | none => (0, resInit)
        | none => (0, resInit)
      | none => (0, resInit)
    else (0, resInit)
  let remaining := allSessions.drop startState.1
  let run := indexBatches env opts.batchSize remaining.length remaining
    opts.checkpointFile startState.2
  (run.1, none)

end ChunkIndexer

/-
Concrete fixtures for witnesses and counterexamples.
-/

/-- A user message row. -/
def exUser (u c t : String) : Message :=
  { uuid := u, session_id := "s", role := "user", content := c, timestamp := t,
    model := none, parent_uuid := none, message_type := some "user", cwd := none }

/-- An assistant message row. -/
def exAssistant (u c t : String) : Message :=
  { uuid := u, session_id := "s", role := "assistant", content := c, timestamp := t,
    model := none, parent_uuid := none, message_type := some "assistant", cwd := none }

/-- A plain non-stub session row. -/
def exSession : Session :=
  { id := "s", file_path := "/f.jsonl", project_id := none, project_path := none,
    cwd := none, started_at := "T0", ended_at := none, message_count := 0,
    title := none, summary := none, is_title_auto_generated := false,
    is_stub := false }

/-- A date parser fixture: epoch milliseconds for the timestamp labels used by
the fixtures ("T2" and "T3" are 31 minutes and a bit after "T0"/"T1"). -/
def exDate : String → Int := fun s =>
  if s = "T3" then 1920002 else if s = "T2" then 1920001
  else if s = "T1" then 60000 else 0

/-- Four messages forming two user/assistant pairs about the same keyword (git),
with the two pairs more than 30 minutes apart. -/
def exGapMessages : List Message :=
  [exUser "u1" "git" "T0", exAssistant "a1" "git" "T1",
   exUser "u2" "git" "T2", exAssistant "a2" "git" "T3"]

/-- An empty database. -/
def exEmptyDb : Db :=
  { sessions := [], messages := [], projects := [], session_tags := [] }

/-- A parsed user message as produced by the parser. -/
def exParsedMsg (u t : String) : ParsedMessage :=
  { uuid := u, session_id := "s", role := "user", content := "hello",
    timestamp := t, model := none, parent_uuid := none,
    message_type := some "user", cwd := none }

/-- A parsed transcript with two messages. -/
def exParsed : ParsedSession :=
  { id := "s", file_path := "/f.jsonl", project_path := some "/home/u/proj",
    cwd := some "/home/u/proj", title := some "hi", started_at := some "T0",
    ended_at := some "T1",
    messages := [exParsedMsg "u1" "T0", exParsedMsg "u2" "T1"] }

/-- A database holding a stub for session s that carries a user-applied tag, a
user-set title and a summary. -/
def exStubDb : Db :=
  { sessions :=
      [{ id := "s", file_path := "STUB:pending_import", project_id := none,
         project_path := none, cwd := none, started_at := "T0", ended_at := none,
         message_count := 0, title := some "My label", summary := some "my notes",
         is_title_auto_generated := false, is_stub := true }]
    messages := []
    projects := []
    session_tags := [("s", 7)] }

/-- Two sessions for an indexing run. -/
def exIdxSessions : List Session :=
  [{ exSession with id := "s1" }, { exSession with id := "s2" }]

/-- An indexer environment whose checkpoint writes always throw: every session
has one user message, every upsert resolves. -/
def exEnvFailingWrites : ChunkIndexer.IndexerEnv :=
  { findBySession := fun sid => [exUser ("u-" ++ sid) "hello" "T0"]
    upsertChunks := fun _ => true
    writeCheckpoint := fun _ => false
    dateParse := exDate
    now := "N" }

/-- A system record carrying the earliest timestamp of the file. -/
def exSystemRecord : JsonlParser.RawJsonlMessage :=
  { type := some "system", isMeta := false, summary := none, sessionId := some "s",
    cwd := none, timestamp := some "2020-01-01T00:00:00Z", uuid := some "x1",
    parentUuid := none, message := none }

/-- A retained user record with a later timestamp. -/
def exUserRecord : JsonlParser.RawJsonlMessage :=
  { type := some "user", isMeta := false, summary := none, sessionId := some "s",
    cwd := none, timestamp := some "2020-01-02T00:00:00Z", uuid := some "u1",
    parentUuid := none,
    message := some { role := some "user", model := none,
                      content := JsonlParser.RawContent.str "hello" } }

/-- A transcript whose system record predates its only content record. -/
def exLines : List JsonlParser.RawLine :=
  [JsonlParser.RawLine.record exSystemRecord, JsonlParser.RawLine.record exUserRecord]

/-- The message parseLines retains from exLines. -/
def exParsedUserMsg : ParsedMessage :=
  { uuid := "u1", session_id := "s", role := "user", content := "hello",
    timestamp := "2020-01-02T00:00:00Z", model := none, parent_uuid := none,
    message_type := some "user", cwd := none }

/-- The session parseLines returns for exLines. -/
def exParsedOut : ParsedSession :=
  { id := "s", file_path := "f.jsonl", project_path := none, cwd := none,
    title := some "hello", started_at := some "2020-01-02T00:00:00Z",
    ended_at := some "2020-01-02T00:00:00Z", messages := [exParsedUserMsg] }

/-- Two embedding inputs, the second of which fails at the embedding server. -/
def exTexts : List String := ["alpha", "beta"]

/-- An embedding API fixture: beta fails, everything else succeeds. -/
def exEmbedApi : String → Except String (List Int) := fun t =>
  if t = "beta" then Except.error "embed down" else Except.ok [3, 1, 4]

/-- A chunk with its processing_date (the only wall-clock field) blanked, for
stating determinism of every other field. -/
def stripProcessingDate (c : ConversationChunk) : ConversationChunk :=
  { c with processing_date := "" }

/-- Total number of pairs across a list of topic groups. -/
def sumPairs (gs : List TopicGroup) : Nat := (gs.map (fun g => g.pairs.length)).sum

/-- One line of the parseFile loop (bad lines are skipped). -/
def parseStep (st : JsonlParser.ParseState) (l : JsonlParser.RawLine) :
    JsonlParser.ParseState :=
  match l with
  | .bad => st
  | .record r => JsonlParser.processRecord st r

/-- The running minimum computed by the started_at updates (strict comparison,
so the first occurrence wins ties). -/
def jsMinFold (acc : Option String) (ts : List String) : Option String :=
  ts.foldl
    (fun a t =>
      match a with
      | none => some t
      | some m => if jsLt t m then some t else some m) acc

/-- The running maximum computed by the ended_at updates. -/
def jsMaxFold (acc : Option String) (ts : List String) : Option String :=
  ts.foldl
    (fun a t =>
      match a with
      | none => some t
      | some m => if jsLt m t then some t else some m) acc

/-- m is a minimum of ts under JavaScript string comparison (first occurrence
wins on ties, so minimality is non-strict). -/
def jsMinOk (m : String) (ts : List String) : Prop :=
  m ∈ ts ∧ ∀ t ∈ ts, jsLt t m = false

/-- m is a maximum of ts under JavaScript string comparison. -/
def jsMaxOk (m : String) (ts : List String) : Prop :=
  m ∈ ts ∧ ∀ t ∈ ts, jsLt m t = false

/-
Theorems.
-/

namespace ChunkManager

lemma emitPairs_length (sid : String) (pp : Option String) (now topic : String)
    (last : Bool) (ps : List MessagePair) (s0 : Nat) :
    (emitPairs sid pp now topic last s0 ps).length = ps.length := by
  induction ps generalizing s0 with
  | nil => rfl
  | cons p rest ih => simp [emitPairs, ih]

lemma emitPairs_getElem? (sid : String) (pp : Option String) (now topic : String)
    (last : Bool) (ps : List MessagePair) (s0 k : Nat) (pair : MessagePair)
    (hp : ps[k]? = some pair) :
    (emitPairs sid pp now topic last s0 ps)[k]? =
      some (mkChunk sid pp now topic (s0 + k + 1)
        (decide (k + 1 < ps.length) || !last) pair) := by
  induction ps generalizing s0 k with
  | nil => simp at hp
  | cons p rest ih =>
    cases k with
    | zero =>
      simp only [List.getElem?_cons_zero, Option.some.injEq] at hp
      subst hp
      have hb : (decide (0 + 1 < (p :: rest).length) || !last) = (!rest.isEmpty || !last) := by
        cases rest <;> simp
      rw [hb]
      simp [emitPairs]
    | succ k' =>
      simp only [List.getElem?_cons_succ] at hp
      have h := ih (s0 + 1) k' hp
      have e1 : s0 + 1 + k' + 1 = s0 + (k' + 1) + 1 := by omega
      have e2 : decide (k' + 1 < rest.length) =
          decide (k' + 1 + 1 < (p :: rest).length) := by
        rw [decide_eq_decide]
        simp
      rw [e1, e2] at h
      simpa [emitPairs] using h

lemma emitGroups_length (sid : String) (pp : Option String) (now : String)
    (gs : List TopicGroup) (s0 : Nat) :
    (emitGroups sid pp now s0 gs).length = sumPairs gs := by
  induction gs generalizing s0 with
  | nil => rfl
  | cons g rest ih => simp [emitGroups, sumPairs, emitPairs_length, ih, List.sum_cons]

lemma sumPairs_pos (gs : List TopicGroup) (g : TopicGroup) (hg : g ∈ gs)
    (hne : g.pairs ≠ []) : 0 < sumPairs gs := by
  induction gs with
  | nil => simp at hg
  | cons g0 rest ih =>
    rcases List.mem_cons.mp hg with h | h
    · subst h
      have : 0 < g.pairs.length := List.length_pos.mpr hne
      simp [sumPairs, List.sum_cons]
      omega
    · have := ih h
      simp [sumPairs, List.sum_cons] at this ⊢
      omega

lemma emitGroups_getElem? (sid : String) (pp : Option String) (now : String)
    (gs : List TopicGroup) (hne : ∀ g ∈ gs, g.pairs ≠ []) (s0 k : Nat)
    (hk : k < sumPairs gs) :
    ∃ topic pair, (emitGroups sid pp now s0 gs)[k]? =
      some (mkChunk sid pp now topic (s0 + k + 1)
        (decide (k + 1 < sumPairs gs)) pair) := by
  induction gs generalizing s0 k with
  | nil => simp [sumPairs] at hk
  | cons g rest ih =>
    have hsum : sumPairs (g :: rest) = g.pairs.length + sumPairs rest := by
      simp [sumPairs, List.sum_cons]
    by_cases hkg : k < g.pairs.length
    · obtain ⟨pair, hp⟩ : ∃ pair, g.pairs[k]? = some pair :=
        ⟨g.pairs.get ⟨k, hkg⟩, by rw [List.getElem?_eq_getElem hkg]; rfl⟩
      refine ⟨g.topic, pair, ?_⟩
      have hlt : k < (emitPairs sid pp now g.topic rest.isEmpty s0 g.pairs).length := by
        rw [emitPairs_length]; exact hkg
      rw [emitGroups, List.getElem?_append_left hlt,
        emitPairs_getElem? sid pp now g.topic rest.isEmpty g.pairs s0 k pair hp]
      have hb : (decide (k + 1 < g.pairs.length) || !rest.isEmpty) =
          decide (k + 1 < sumPairs (g :: rest)) := by
        cases hrest : rest with
        | nil => simp [hsum, hrest, sumPairs]
        | cons g' rest' =>
          subst hrest
          have h1 : 0 < sumPairs (g' :: rest') := by
            refine sumPairs_pos _ g' (List.mem_cons_self g' rest') ?_
            exact hne g' (by simp)
          have h2 : k + 1 < sumPairs (g :: g' :: rest') := by
            rw [hsum]; omega
          simp [decide_eq_true_eq, h2]
      rw [hb]
    · push_neg at hkg
      have hlen : (emitPairs sid pp now g.topic rest.isEmpty s0 g.pairs).length ≤ k := by
        rw [emitPairs_length]; exact hkg
      have hk' : k - g.pairs.length < sumPairs rest := by omega
      obtain ⟨topic, pair, h⟩ := ih (fun g' hg' => hne g' (List.mem_cons_of_mem g hg'))
        (s0 + g.pairs.length) (k - g.pairs.length) hk'
      refine ⟨topic, pair, ?_⟩
      rw [emitGroups, List.getElem?_append_right hlen, emitPairs_length]
      have e1 : s0 + g.pairs.length + (k - g.pairs.length) + 1 = s0 + k + 1 := by omega
      have e2 : decide (k - g.pairs.length + 1 < sumPairs rest) =
          decide (k + 1 < sumPairs (g :: rest)) := by
        rw [decide_eq_decide]
        omega
      rw [e1, e2] at h
      exact h

lemma detectLoop_pairs_ne (dp : String → Int) (ps : List MessagePair)
    (topic : String) (lastPair : MessagePair) (earlier : List MessagePair)
    (g : TopicGroup) (hg : g ∈ detectLoop dp topic lastPair earlier ps) :
    g.pairs ≠ [] := by
  induction ps generalizing topic lastPair earlier with
  | nil =>
    simp [detectLoop] at hg
    subst hg
    simp [closeGroup]
  | cons p rest ih =>
    rw [detectLoop] at hg
    split at hg
    · rcases List.mem_cons.mp hg with h | h
      · subst h; simp [closeGroup]
      · exact ih _ _ _ h
    · exact ih _ _ _ hg

lemma detectTopicGroups_pairs_ne (dp : String → Int) (ps : List MessagePair)
    (g : TopicGroup) (hg : g ∈ detectTopicGroups dp ps) : g.pairs ≠ [] := by
  cases ps with
  | nil => simp [detectTopicGroups] at hg
  | cons p0 rest => exact detectLoop_pairs_ne dp rest _ p0 [] g hg

lemma processSession_chunkAt (dp : String → Int) (now : String) (session : Session)
    (messages : List Message) (k : Nat) (c : ConversationChunk)
    (h : (processSession dp now session messages)[k]? = some c) :
    c.sequence_number = k + 1 ∧
    c.chunk_id = chunkIdFor session.id (k + 1) ∧
    c.previous_chunk = (if k = 0 then none else some (chunkIdFor session.id k)) ∧
    c.next_chunk =
      (if k + 1 < (processSession dp now session messages).length then
        some (chunkIdFor session.id (k + 2))
      else none) := by
  rw [processSession] at h ⊢
  by_cases hempty : (messages.filter (fun m => m.role != "system")).isEmpty
  · simp [hempty] at h
  · simp only [hempty, if_false, Bool.false_eq_true] at h ⊢
    set groups := detectTopicGroups dp
      (createMessagePairs (messages.filter (fun m => m.role != "system"))) with hgroups
    have hk : k < (emitGroups session.id (normalizeProjectPath session.project_path)
        now 0 groups).length := (List.getElem?_eq_some.mp h).1
    rw [emitGroups_length] at hk
    obtain ⟨topic, pair, heq⟩ := emitGroups_getElem? session.id
      (normalizeProjectPath session.project_path) now groups
      (fun g hg => detectTopicGroups_pairs_ne dp _ g hg) 0 k hk
    rw [heq] at h
    have hc : c = mkChunk session.id (normalizeProjectPath session.project_path)
        now topic (0 + k + 1) (decide (k + 1 < sumPairs groups)) pair :=
      (Option.some.injEq _ _).mp h.symm
    subst hc
    refine ⟨by simp [mkChunk], by simp [mkChunk], ?_, ?_⟩
    · cases k with
      | zero => simp [mkChunk]
      | succ k' => simp [mkChunk]
    · rw [emitGroups_length]
      by_cases hnext : k + 1 < sumPairs groups
      · simp [mkChunk, hnext]
      · simp [mkChunk, hnext]

end ChunkManager

namespace ChunkManager

lemma strip_mkChunk (sid : String) (pp : Option String) (n1 n2 topic : String)
    (seq : Nat) (hasNext : Bool) (pair : MessagePair) :
    stripProcessingDate (mkChunk sid pp n1 topic seq hasNext pair) =
    stripProcessingDate (mkChunk sid pp n2 topic seq hasNext pair) := rfl

lemma emitPairs_strip (sid : String) (pp : Option String) (n1 n2 topic : String)
    (last : Bool) (ps : List MessagePair) (s0 : Nat) :
    (emitPairs sid pp n1 topic last s0 ps).map stripProcessingDate =
    (emitPairs sid pp n2 topic last s0 ps).map stripProcessingDate := by
  induction ps generalizing s0 with
  | nil => rfl
  | cons p rest ih =>
    simp only [emitPairs, List.map_cons]
    rw [strip_mkChunk sid pp n1 n2, ih]

lemma emitGroups_strip (sid : String) (pp : Option String) (n1 n2 : String)
    (gs : List TopicGroup) (s0 : Nat) :
    (emitGroups sid pp n1 s0 gs).map stripProcessingDate =
    (emitGroups sid pp n2 s0 gs).map stripProcessingDate := by
  induction gs generalizing s0 with
  | nil => rfl
  | cons g rest ih =>
    simp only [emitGroups, List.map_append]
    rw [emitPairs_strip sid pp n1 n2, ih]

end ChunkManager

/-- C4 (counterexample): ChunkManager.processSession is not a pure function of
(session, messages) alone — it stamps each chunk's processing_date with the
wall-clock instant of the call, so two invocations on equal inputs at different
instants return unequal chunk lists. -/
theorem processSession_wall_clock_dependent :
    ¬ (ChunkManager.processSession exDate "NOW1" exSession exGapMessages =
       ChunkManager.processSession exDate "NOW2" exSession exGapMessages) := by
  decide

/-- C4 (amended): ChunkManager.processSession is deterministic in every chunk
field except processing_date: for equal (session, messages) inputs, invocations
at any two wall-clock instants return chunk lists that agree after blanking
processing_date. -/
theorem processSession_deterministic_except_processing_date
    (dateParse : String → Int) (now1 now2 : String) (session : Session)
    (messages : List Message) :
    (ChunkManager.processSession dateParse now1 session messages).map
      stripProcessingDate =
    (ChunkManager.processSession dateParse now2 session messages).map
      stripProcessingDate := by
  rw [ChunkManager.processSession, ChunkManager.processSession]
  by_cases hempty : (messages.filter (fun m => m.role != "system")).isEmpty
  · simp [hempty]
  · simp only [hempty, if_false, Bool.false_eq_true]
    exact ChunkManager.emitGroups_strip session.id _ now1 now2 _ 0

/-- C5: adjacency chain integrity of processSession — the k-th emitted chunk
(0-based k here) has 1-based sequence_number k+1, the first chunk has no
previous_chunk, the last chunk has no next_chunk, and each chunk's
next_chunk/previous_chunk equals its successor's/predecessor's chunk_id. -/
theorem processSession_adjacency_chain (dateParse : String → Int) (now : String)
    (session : Session) (messages : List Message) (k : Nat) (c : ConversationChunk)
    (h : (ChunkManager.processSession dateParse now session messages)[k]? = some c) :
    c.sequence_number = k + 1 ∧
    (k = 0 → c.previous_chunk = none) ∧
    (k + 1 = (ChunkManager.processSession dateParse now session messages).length →
      c.next_chunk = none) ∧
    (∀ c2, (ChunkManager.processSession dateParse now session messages)[k + 1]? = some c2 →
      c.next_chunk = some c2.chunk_id ∧ c2.previous_chunk = some c.chunk_id) := by
  obtain ⟨hseq, hid, hprev, hnext⟩ :=
    ChunkManager.processSession_chunkAt dateParse now session messages k c h
  refine ⟨hseq, ?_, ?_, ?_⟩
  · intro hk0
    rw [hprev, if_pos hk0]
  · intro hlast
    rw [hnext, if_neg (by omega)]
  · intro c2 h2
    obtain ⟨hseq2, hid2, hprev2, _⟩ :=
      ChunkManager.processSession_chunkAt dateParse now session messages (k + 1) c2 h2
    have hk2 : k + 1 < (ChunkManager.processSession dateParse now session messages).length :=
      (List.getElem?_eq_some.mp h2).1
    constructor
    · rw [hnext, if_pos hk2, hid2]
    · rw [hprev2, if_neg (by omega), hid]

/-- Witness for C5 at a concrete conversation: the first chunk of the
exGapMessages conversation has sequence number 1. -/
theorem processSession_adjacency_chain_witness :
    ((ChunkManager.processSession exDate "N" exSession exGapMessages)[0]?.map
      (fun c => c.sequence_number)) = some 1 := by
  cases hc : (ChunkManager.processSession exDate "N" exSession exGapMessages)[0]? with
  | none => exact absurd hc (by decide)
  | some c =>
    have h := processSession_adjacency_chain exDate "N" exSession exGapMessages 0 c hc
    simp [h.1]

lemma extractTopic_git (mu ma : Message) (hu : mu.content = "git")
    (ha : ma.content = "git") (ts : String) :
    ChunkManager.extractTopic
      { userMessage := some mu, assistantMessage := some ma, timestamp := ts } = "git" := by
  rw [ChunkManager.extractTopic]
  simp only [Option.map_some', Option.getD_some]
  rw [hu, ha]
  decide

/-- C6 (counterexample): two consecutive user/assistant pairs about the same
keyword (git) more than 30 minutes apart do land in different internal topic
groups, but the claimed broken adjacency chain does not occur — on the concrete
conversation exGapMessages the first chunk's next_chunk is exactly the second
chunk's chunk_id and the second chunk's previous_chunk is the first chunk's
chunk_id, so the links connect across the group boundary. -/
theorem topic_gap_chain_not_broken_cex :
    (ChunkManager.detectTopicGroups exDate
       (ChunkManager.createMessagePairs exGapMessages)).length = 2 ∧
    ((ChunkManager.processSession exDate "N" exSession exGapMessages).map
       (fun c => c.next_chunk)) = [some "conv_s_pair_2", none] ∧
    ((ChunkManager.processSession exDate "N" exSession exGapMessages).map
       (fun c => (c.chunk_id, c.previous_chunk))) =
      [("conv_s_pair_1", none), ("conv_s_pair_2", some "conv_s_pair_1")] := by
  decide

/-- C6 (amended): for two consecutive message pairs carrying the same topic
keyword whose representative timestamps are more than 30 minutes apart, chunking
places them in different (internal) topic groups, but the boundary leaves the
adjacency chain intact: both emitted chunks carry the same topic label and the
previous_chunk/next_chunk links connect the last chunk of the first group to the
first chunk of the next. -/
theorem topic_gap_splits_groups_chain_connected
    (dateParse : String → Int) (now : String) (session : Session)
    (u1 a1 u2 a2 : Message)
    (hu1r : u1.role = "user") (ha1r : a1.role = "assistant")
    (hu2r : u2.role = "user") (ha2r : a2.role = "assistant")
    (hu1c : u1.content = "git") (ha1c : a1.content = "git")
    (hu2c : u2.content = "git") (ha2c : a2.content = "git")
    (ha1t : a1.timestamp ≠ "") (ha2t : a2.timestamp ≠ "")
    (hgap : ChunkManager.timeGapExceedsThirty dateParse a1.timestamp a2.timestamp = true) :
    (ChunkManager.detectTopicGroups dateParse
       (ChunkManager.createMessagePairs [u1, a1, u2, a2])).length = 2 ∧
    ∀ c1 c2,
      (ChunkManager.processSession dateParse now session [u1, a1, u2, a2])[0]? = some c1 →
      (ChunkManager.processSession dateParse now session [u1, a1, u2, a2])[1]? = some c2 →
      c1.topic_group = some "git" ∧ c2.topic_group = some "git" ∧
      c1.next_chunk = some c2.chunk_id ∧ c2.previous_chunk = some c1.chunk_id := by
  have hpairs : ChunkManager.createMessagePairs [u1, a1, u2, a2] =
      [{ userMessage := some u1, assistantMessage := some a1, timestamp := a1.timestamp },
       { userMessage := some u2, assistantMessage := some a2, timestamp := a2.timestamp }] := by
    rw [ChunkManager.createMessagePairs, ChunkManager.createMessagePairs]
    simp [hu1r, ha1r, hu2r, ha2r, ChunkManager.pairTimestampOf, ha1t, ha2t,
      ChunkManager.createMessagePairs]
  have htop1 := extractTopic_git u1 a1 hu1c ha1c a1.timestamp
  have htop2 := extractTopic_git u2 a2 hu2c ha2c a2.timestamp
  have hgroups : ChunkManager.detectTopicGroups dateParse
      (ChunkManager.createMessagePairs [u1, a1, u2, a2]) =
      [{ topic := "git",
         pairs := [{ userMessage := some u1, assistantMessage := some a1,
                     timestamp := a1.timestamp }] },
       { topic := "git",
         pairs := [{ userMessage := some u2, assistantMessage := some a2,
                     timestamp := a2.timestamp }] }] := by
    rw [hpairs, ChunkManager.detectTopicGroups, ChunkManager.detectLoop]
    simp only [htop1, htop2, hgap, Bool.true_or, if_true]
    rw [ChunkManager.detectLoop]
    simp [ChunkManager.closeGroup]
  have hfilter : [u1, a1, u2, a2].filter (fun m => m.role != "system") =
      [u1, a1, u2, a2] := by
    simp [List.filter, hu1r, ha1r, hu2r, ha2r]
  have hchunks : ChunkManager.processSession dateParse now session [u1, a1, u2, a2] =
      [ChunkManager.mkChunk session.id (ChunkManager.normalizeProjectPath session.project_path)
         now "git" 1 true
         { userMessage := some u1, assistantMessage := some a1, timestamp := a1.timestamp },
       ChunkManager.mkChunk session.id (ChunkManager.normalizeProjectPath session.project_path)
         now "git" 2 false
         { userMessage := some u2, assistantMessage := some a2, timestamp := a2.timestamp }] := by
    rw [ChunkManager.processSession]
    simp only [hfilter, hgroups, List.isEmpty_cons, if_false, Bool.false_eq_true]
    rw [ChunkManager.emitGroups, ChunkManager.emitPairs, ChunkManager.emitPairs,
      ChunkManager.emitGroups, ChunkManager.emitPairs, ChunkManager.emitPairs,
      ChunkManager.emitGroups]
    simp
  refine ⟨by rw [hgroups]; rfl, ?_⟩
  intro c1 c2 h1 h2
  rw [hchunks] at h1 h2
  simp only [List.getElem?_cons_zero, List.getElem?_cons_succ, Option.some.injEq] at h1 h2
  subst h1
  subst h2
  refine ⟨rfl, rfl, rfl, rfl⟩

/-- Witness for C6 (amended) at the concrete conversation exGapMessages. -/
theorem topic_gap_splits_groups_chain_connected_witness :
    (ChunkManager.detectTopicGroups exDate
       (ChunkManager.createMessagePairs exGapMessages)).length = 2 := by
  have h := topic_gap_splits_groups_chain_connected exDate "N" exSession
    (exUser "u1" "git" "T0") (exAssistant "a1" "git" "T1")
    (exUser "u2" "git" "T2") (exAssistant "a2" "git" "T3")
    rfl rfl rfl rfl rfl rfl rfl rfl (by decide) (by decide) (by decide)
  exact h.1

namespace ImportService

lemma importAllStep_counts (acc : ImportResult) (f : String)
    (outcome : Except String (Option Nat)) :
    (importAllStep acc f outcome).imported + (importAllStep acc f outcome).skipped +
        (importAllStep acc f outcome).failed =
      acc.imported + acc.skipped + acc.failed + 1 ∧
    (importAllStep acc f outcome).errors.length + acc.failed =
      acc.errors.length + (importAllStep acc f outcome).failed ∧
    (importAllStep acc f outcome).totalFiles = acc.totalFiles := by
  rcases outcome with e | v
  · refine ⟨?_, ?_, by simp [importAllStep]⟩
    · simp [importAllStep]; omega
    · simp [importAllStep]; omega
  · rcases v with _ | n
    · refine ⟨?_, by simp [importAllStep], by simp [importAllStep]⟩
      simp [importAllStep]; omega
    · by_cases hn : n = 0
      · refine ⟨?_, by simp [importAllStep, hn], by simp [importAllStep, hn]⟩
        simp [importAllStep, hn]; omega
      · refine ⟨?_, by simp [importAllStep, hn], by simp [importAllStep, hn]⟩
        simp [importAllStep, hn]; omega

lemma importAll_loop_invariant (runImport : String → Except String (Option Nat)) :
    ∀ (files : List String) (acc : ImportResult),
      ((files.foldl (fun a f => importAllStep a f (runImport f)) acc).imported +
          (files.foldl (fun a f => importAllStep a f (runImport f)) acc).skipped +
          (files.foldl (fun a f => importAllStep a f (runImport f)) acc).failed =
        acc.imported + acc.skipped + acc.failed + files.length) ∧
      ((files.foldl (fun a f => importAllStep a f (runImport f)) acc).errors.length +
          acc.failed =
        acc.errors.length +
          (files.foldl (fun a f => importAllStep a f (runImport f)) acc).failed) ∧
      (files.foldl (fun a f => importAllStep a f (runImport f)) acc).totalFiles =
        acc.totalFiles := by
  intro files
  induction files with
  | nil => intro acc; exact ⟨rfl, rfl, rfl⟩
  | cons f rest ih =>
    intro acc
    obtain ⟨s1, s2, s3⟩ := importAllStep_counts acc f (runImport f)
    obtain ⟨h1, h2, h3⟩ := ih (importAllStep acc f (runImport f))
    rw [List.foldl_cons]
    have hlen : (f :: rest).length = rest.length + 1 := rfl
    refine ⟨by omega, by omega, by rw [h3, s3]⟩

end ImportService

/-- C10: every ImportResult returned by ImportService.importAll satisfies
imported + skipped + failed = totalFiles (each discovered file increments
exactly one of the three counters), and the errors list holds exactly one entry
per failed file. -/
theorem importAll_counters_partition (files : List String)
    (runImport : String → Except String (Option Nat)) :
    (ImportService.importAll files runImport).imported +
      (ImportService.importAll files runImport).skipped +
      (ImportService.importAll files runImport).failed =
      (ImportService.importAll files runImport).totalFiles ∧
    (ImportService.importAll files runImport).errors.length =
      (ImportService.importAll files runImport).failed := by
  obtain ⟨h1, h2, h3⟩ := ImportService.importAll_loop_invariant runImport files
    { totalFiles := files.length, imported := 0, skipped := 0, failed := 0,
      totalMessages := 0, errors := [] }
  rw [ImportService.importAll]
  simp only at h1 h2 h3
  constructor
  · rw [h1, h3]
    simp
  · simp at h2
    omega

namespace ChunkIndexer

lemma processOneSession_ignores_writes (env : IndexerEnv) (w : Checkpoint → Bool)
    (s : Session) (acc : ChunkIndexingResult) :
    processOneSession { env with writeCheckpoint := w } s acc =
      processOneSession env s acc := rfl

lemma indexBatches_result_ignores_writes (env : IndexerEnv)
    (w1 w2 : Checkpoint → Bool) (bs : Nat) :
    ∀ (fuel : Nat) (sessions : List Session) (slot1 slot2 : Option Checkpoint)
      (acc : ChunkIndexingResult),
      (indexBatches { env with writeCheckpoint := w1 } bs fuel sessions slot1 acc).1 =
      (indexBatches { env with writeCheckpoint := w2 } bs fuel sessions slot2 acc).1 := by
  intro fuel
  induction fuel with
  | zero =>
    intro sessions slot1 slot2 acc
    cases sessions <;> rfl
  | succ fuel ih =>
    intro sessions slot1 slot2 acc
    cases sessions with
    | nil => rfl
    | cons s rest =>
      rw [indexBatches, indexBatches]
      exact ih _ _ _ _

end ChunkIndexer

/-- C2 (counterexample): a checkpoint-persist failure is not fatal.  With an
environment whose checkpoint writes always throw, indexAll over two one-message
sessions at batch size 1 still processes both batches and finishes with zero
errors, instead of aborting after the first batch with an error outcome. -/
theorem checkpoint_write_failure_not_fatal_cex :
    (ChunkIndexer.indexAll exEnvFailingWrites exIdxSessions
        { batchSize := 1, freshStart := true, checkpointFile := none }).1 =
      { totalSessions := 2, processedSessions := 2, skippedSessions := 0,
        totalChunks := 2, errors := 0 } := by
  decide

/-- C2 (amended): a failure to persist the checkpoint is caught and logged
inside ChunkIndexer.saveCheckpoint; indexAll continues with the next batch and
its result is entirely independent of checkpoint-write outcomes (and of the
checkpoint-file content fed to the batch loop). -/
theorem indexAll_result_independent_of_checkpoint_writes
    (env : ChunkIndexer.IndexerEnv) (w1 w2 : ChunkIndexer.Checkpoint → Bool)
    (allSessions : List Session) (opts : ChunkIndexer.ChunkIndexingOptions) :
    (ChunkIndexer.indexAll { env with writeCheckpoint := w1 } allSessions opts).1 =
    (ChunkIndexer.indexAll { env with writeCheckpoint := w2 } allSessions opts).1 := by
  rw [ChunkIndexer.indexAll, ChunkIndexer.indexAll]
  exact ChunkIndexer.indexBatches_result_ignores_writes env w1 w2 opts.batchSize _ _ _ _ _

namespace ImportService

/-- A session-row transformer that rewrites only the row with the given id,
without changing any row's id. -/
lemma findById_map_rows (db : Db) (x id : String) (g : Session → Session)
    (hg : ∀ r, (g r).id = r.id) :
    SessionRepository.findById
        { db with sessions := db.sessions.map fun r => if r.id == id then g r else r } x =
      (SessionRepository.findById db x).map fun r => if r.id == id then g r else r := by
  rw [SessionRepository.findById, SessionRepository.findById, List.find?_map]
  have hp : ((fun r : Session => r.id == x) ∘ fun r => if r.id == id then g r else r) =
      fun r : Session => r.id == x := by
    funext r
    by_cases hr : r.id = id
    · simp [hr, hg]
    · simp [hr]
  rw [hp]

lemma find?_pred_of_eq_some {α : Type} (p : α → Bool) (l : List α) (a : α)
    (h : l.find? p = some a) : p a = true := List.find?_some h

lemma sessionExists_eq_isSome (db : Db) (x : String) :
    SessionRepository.sessionExists db x = (SessionRepository.findById db x).isSome := by
  rw [SessionRepository.sessionExists, SessionRepository.findById]
  rcases h : db.sessions.find? (fun r => r.id == x) with _ | r
  · rw [h]
    simp only [Option.isSome_none]
    rw [List.any_eq_false]
    intro r hr
    exact List.find?_eq_none.mp h r hr
  · rw [h]
    simp only [Option.isSome_some]
    rw [List.any_eq_true]
    refine ⟨r, ?_, ?_⟩
    · exact List.mem_of_find?_eq_some h
    · exact find?_pred_of_eq_some (fun r => r.id == x) db.sessions r h

lemma findById_create (db : Db) (input : CreateSessionInput) (x : String) :
    SessionRepository.findById (SessionRepository.create db input) x =
      ((SessionRepository.findById db x).or
        (if input.id == x then some (SessionRepository.rowOfInput input) else none)) := by
  rw [SessionRepository.findById, SessionRepository.findById, SessionRepository.create]
  rw [List.find?_append]
  congr 1
  by_cases hix : (input.id == x) = true
  · have htrue : ((SessionRepository.rowOfInput input).id == x) = true := hix
    simp [List.find?_cons, htrue, hix]
  · have hfalse : ((SessionRepository.rowOfInput input).id == x) = false := by
      simpa using hix
    simp [List.find?_cons, hfalse, hix]

lemma getOrCreate_frame (db : Db) (path : String) :
    ((ProjectRepository.getOrCreate db path).2.sessions = db.sessions) ∧
    ((ProjectRepository.getOrCreate db path).2.messages = db.messages) ∧
    ((ProjectRepository.getOrCreate db path).2.session_tags = db.session_tags) := by
  rw [ProjectRepository.getOrCreate]
  rcases h : ProjectRepository.findByPath db path with _ | pr <;> simp [h]

lemma createManyStep_frame (acc : Nat × Db) (input : CreateMessageInput) :
    ((MessageRepository.createManyStep acc input).2.sessions = acc.2.sessions) ∧
    ((MessageRepository.createManyStep acc input).2.projects = acc.2.projects) ∧
    ((MessageRepository.createManyStep acc input).2.session_tags = acc.2.session_tags) := by
  rw [MessageRepository.createManyStep]
  split <;> exact ⟨rfl, rfl, rfl⟩

lemma createMany_fold_frame (inputs : List CreateMessageInput) :
    ∀ (acc : Nat × Db),
      ((inputs.foldl MessageRepository.createManyStep acc).2.sessions = acc.2.sessions) ∧
      ((inputs.foldl MessageRepository.createManyStep acc).2.projects = acc.2.projects) ∧
      ((inputs.foldl MessageRepository.createManyStep acc).2.session_tags =
        acc.2.session_tags) := by
  induction inputs with
  | nil => intro acc; exact ⟨rfl, rfl, rfl⟩
  | cons i rest ih =>
    intro acc
    obtain ⟨h1, h2, h3⟩ := ih (MessageRepository.createManyStep acc i)
    obtain ⟨s1, s2, s3⟩ := createManyStep_frame acc i
    rw [List.foldl_cons]
    exact ⟨h1.trans s1, h2.trans s2, h3.trans s3⟩

lemma createManyStep_uuid_mono (acc : Nat × Db) (input : CreateMessageInput) (u : String)
    (h : acc.2.messages.any (fun m => m.uuid == u) = true) :
    (MessageRepository.createManyStep acc input).2.messages.any
      (fun m => m.uuid == u) = true := by
  rw [MessageRepository.createManyStep]
  split
  · exact h
  · simp [List.any_append, h]

lemma createManyStep_uuid_self (acc : Nat × Db) (input : CreateMessageInput) :
    (MessageRepository.createManyStep acc input).2.messages.any
      (fun m => m.uuid == input.uuid) = true := by
  rw [MessageRepository.createManyStep]
  split
  · assumption
  · simp [MessageRepository.msgRowOfInput]

lemma createMany_fold_uuid_mono (inputs : List CreateMessageInput) :
    ∀ (acc : Nat × Db) (u : String),
      acc.2.messages.any (fun m => m.uuid == u) = true →
      (inputs.foldl MessageRepository.createManyStep acc).2.messages.any
        (fun m => m.uuid == u) = true := by
  induction inputs with
  | nil => intro acc u h; exact h
  | cons i rest ih =>
    intro acc u h
    rw [List.foldl_cons]
    exact ih _ u (createManyStep_uuid_mono acc i u h)

lemma createMany_fold_uuid_present (inputs : List CreateMessageInput) :
    ∀ (acc : Nat × Db) (input : CreateMessageInput), input ∈ inputs →
      (inputs.foldl MessageRepository.createManyStep acc).2.messages.any
        (fun m => m.uuid == input.uuid) = true := by
  induction inputs with
  | nil => intro acc input h; simp at h
  | cons i rest ih =>
    intro acc input h
    rw [List.foldl_cons]
    rcases List.mem_cons.mp h with h | h
    · subst h
      exact createMany_fold_uuid_mono rest _ input.uuid (createManyStep_uuid_self acc input)
    · exact ih _ input h

lemma createMany_fold_noop (inputs : List CreateMessageInput) :
    ∀ (acc : Nat × Db),
      (∀ input ∈ inputs, acc.2.messages.any (fun m => m.uuid == input.uuid) = true) →
      inputs.foldl MessageRepository.createManyStep acc = acc := by
  induction inputs with
  | nil => intro acc _; rfl
  | cons i rest ih =>
    intro acc h
    rw [List.foldl_cons]
    have hstep : MessageRepository.createManyStep acc i = acc := by
      rw [MessageRepository.createManyStep]
      rw [if_pos (h i (List.mem_cons_self i rest))]
    rw [hstep]
    exact ih acc fun input hin => h input (List.mem_cons_of_mem i hin)

lemma createMany_fold_count (inputs : List CreateMessageInput) :
    ∀ (acc : Nat × Db),
      (inputs.foldl MessageRepository.createManyStep acc).1 + acc.2.messages.length =
        acc.1 + (inputs.foldl MessageRepository.createManyStep acc).2.messages.length := by
  induction inputs with
  | nil => intro acc; rfl
  | cons i rest ih =>
    intro acc
    rw [List.foldl_cons]
    by_cases hc : (acc.2.messages.any fun m => m.uuid == i.uuid) = true
    · have hstep : MessageRepository.createManyStep acc i = acc := by
        rw [MessageRepository.createManyStep, if_pos hc]
      rw [hstep]
      exact ih acc
    · have hstep : MessageRepository.createManyStep acc i =
          (acc.1 + 1,
           { acc.2 with
             messages := acc.2.messages ++ [MessageRepository.msgRowOfInput i] }) := by
        rw [MessageRepository.createManyStep, if_neg hc]
      rw [hstep]
      have h := ih (acc.1 + 1,
        { acc.2 with messages := acc.2.messages ++ [MessageRepository.msgRowOfInput i] })
      simp only [List.length_append, List.length_cons, List.length_nil] at h ⊢
      omega

end ImportService

namespace ImportService

lemma resolveProject_frame (db : Db) (session : ParsedSession) (upr : Bool) :
    (resolveProject db session upr).2.sessions = db.sessions ∧
    (resolveProject db session upr).2.messages = db.messages ∧
    (resolveProject db session upr).2.session_tags = db.session_tags := by
  rw [resolveProject]
  rcases hpp : (if upr = true then session.project_path else none) with _ | q
  · simp [hpp]
  · simp only [hpp]
    exact getOrCreate_frame db q

lemma createMany_noop (db : Db) (ins : List CreateMessageInput)
    (h : ∀ input ∈ ins, db.messages.any (fun m => m.uuid == input.uuid) = true) :
    MessageRepository.createMany db ins = (0, db) :=
  createMany_fold_noop ins (0, db) h

lemma messageInputsOf_present (p : ParsedSession) (db : Db)
    (hmsgs : ∀ msg ∈ p.messages, db.messages.any (fun m => m.uuid == msg.uuid) = true) :
    ∀ input ∈ messageInputsOf p,
      db.messages.any (fun m => m.uuid == input.uuid) = true := by
  intro input hin
  obtain ⟨msg, hmsg, heq⟩ := List.mem_map.mp hin
  subst heq
  exact hmsgs msg hmsg

lemma importFile_all_present (db : Db) (p : ParsedSession) (b upr : Bool) (now : String)
    (hex : SessionRepository.sessionExists db p.id = true)
    (hstub : SessionRepository.isStub db p.id = false)
    (hmsgs : ∀ msg ∈ p.messages, db.messages.any (fun m => m.uuid == msg.uuid) = true) :
    (importFile db (some p) b upr now).1 = some 0 ∧
    (importFile db (some p) b upr now).2.messages = db.messages := by
  rw [importFile]
  simp only [hex, hstub, Bool.and_false, Bool.not_false, Bool.and_true]
  cases b with
  | true => simp
  | false =>
    simp only [Bool.false_and, Bool.false_eq_true, if_false]
    have hframe := resolveProject_frame db p upr
    have hstep : sessionStep db (resolveProject db p upr).2 p
        (sessionInputOf p (resolveProject db p upr).1 now) =
        (resolveProject db p upr).2 := by
      rw [sessionStep, hex, hstub]
      simp
    have hnoop : MessageRepository.createMany (resolveProject db p upr).2
        (messageInputsOf p) = (0, (resolveProject db p upr).2) := by
      apply createMany_noop
      apply messageInputsOf_present
      intro msg hmsg
      rw [hframe.2.1]
      exact hmsgs msg hmsg
    rw [hstep, hnoop]
    exact ⟨rfl, hframe.2.1⟩

end ImportService

namespace ImportService

lemma exists_isStub_congr (dbA dbB : Db) (h : dbA.sessions = dbB.sessions) (x : String) :
    SessionRepository.sessionExists dbA x = SessionRepository.sessionExists dbB x ∧
    SessionRepository.isStub dbA x = SessionRepository.isStub dbB x := by
  constructor
  · rw [SessionRepository.sessionExists, SessionRepository.sessionExists, h]
  · rw [SessionRepository.isStub, SessionRepository.isStub,
      SessionRepository.findById, SessionRepository.findById, h]

lemma exists_isStub_after_update (db : Db) (x id : String) (input : UpdateSessionInput) :
    SessionRepository.sessionExists (SessionRepository.update db id input) x =
      SessionRepository.sessionExists db x ∧
    SessionRepository.isStub (SessionRepository.update db id input) x =
      SessionRepository.isStub db x := by
  have hmap := findById_map_rows db x id
    (fun r => SessionRepository.applyUpdate r input) (fun r => rfl)
  constructor
  · rw [sessionExists_eq_isSome, sessionExists_eq_isSome, SessionRepository.update, hmap]
    rcases h : SessionRepository.findById db x with _ | r <;> simp [h]
  · rw [SessionRepository.isStub, SessionRepository.isStub, SessionRepository.update, hmap]
    rcases h : SessionRepository.findById db x with _ | r
    · rfl
    · simp only [Option.map_some']
      by_cases hr : (r.id == id) = true
      · rw [if_pos hr]
        rfl
      · rw [if_neg hr]

lemma exists_isStub_after_updateFromImport (db : Db) (id : String)
    (input : CreateSessionInput) (hex : SessionRepository.sessionExists db id = true) :
    SessionRepository.sessionExists
        (SessionRepository.updateFromImport db id input) id = true ∧
    SessionRepository.isStub (SessionRepository.updateFromImport db id input) id = false := by
  have hmap := findById_map_rows db id id
    (fun r =>
      { r with
        file_path := input.file_path
        project_id := input.project_id
        project_path := input.project_path
        cwd := input.cwd
        started_at := input.started_at
        ended_at := input.ended_at
        message_count := input.message_count.getD 0
        is_stub := false }) (fun r => rfl)
  rw [sessionExists_eq_isSome] at hex
  rcases h : SessionRepository.findById db id with _ | r
  · rw [h] at hex
    simp at hex
  · have hr : (r.id == id) = true :=
      find?_pred_of_eq_some (fun s => s.id == id) db.sessions r
        (by rw [← SessionRepository.findById]; exact h)
    constructor
    · rw [sessionExists_eq_isSome, SessionRepository.updateFromImport, hmap, h]
      rfl
    · rw [SessionRepository.isStub, SessionRepository.updateFromImport, hmap, h]
      simp only [Option.map_some']
      rw [if_pos hr]

lemma exists_isStub_after_create (db : Db) (input : CreateSessionInput)
    (hnone : SessionRepository.sessionExists db input.id = false)
    (hstub_in : input.is_stub = none) :
    SessionRepository.sessionExists (SessionRepository.create db input) input.id = true ∧
    SessionRepository.isStub (SessionRepository.create db input) input.id = false := by
  rw [sessionExists_eq_isSome] at hnone
  have hfind : SessionRepository.findById db input.id = none := by
    rcases h : SessionRepository.findById db input.id with _ | r
    · rfl
    · rw [h] at hnone
      simp at hnone
  have hcreate := findById_create db input input.id
  rw [hfind] at hcreate
  simp only [Option.none_or, beq_self_eq_true, if_true] at hcreate
  constructor
  · rw [sessionExists_eq_isSome, hcreate]
    rfl
  · rw [SessionRepository.isStub, hcreate]
    simp only [SessionRepository.rowOfInput, hstub_in]
    rfl

end ImportService

namespace ImportService

lemma sessionStep_exists_isStub (db dbProj : Db) (p : ParsedSession)
    (input : CreateSessionInput) (hsess : dbProj.sessions = db.sessions)
    (hid : input.id = p.id) (hstub_in : input.is_stub = none) :
    SessionRepository.sessionExists (sessionStep db dbProj p input) p.id = true ∧
    SessionRepository.isStub (sessionStep db dbProj p input) p.id = false := by
  have hcongr := exists_isStub_congr dbProj db hsess p.id
  rw [sessionStep]
  cases he : SessionRepository.sessionExists db p.id with
  | false =>
    simp only [Bool.false_and, Bool.false_eq_true, if_false, Bool.not_false, if_true]
    have hnone : SessionRepository.sessionExists dbProj input.id = false := by
      rw [hid, hcongr.1]
      exact he
    have h := exists_isStub_after_create dbProj input hnone hstub_in
    rw [hid] at h
    exact h
  | true =>
    cases hs : SessionRepository.isStub db p.id with
    | true =>
      simp only [Bool.and_self, if_true]
      exact exists_isStub_after_updateFromImport dbProj p.id input
        (by rw [hcongr.1]; exact he)
    | false =>
      simp only [Bool.and_false, Bool.false_eq_true, if_false, Bool.not_true, if_true]
      exact ⟨by rw [hcongr.1]; exact he, by rw [hcongr.2]; exact hs⟩

lemma importFile_proceeds_facts (db : Db) (p : ParsedSession) (b upr : Bool)
    (now : String)
    (h : (b && SessionRepository.sessionExists db p.id &&
          !(SessionRepository.isStub db p.id)) = false) :
    SessionRepository.sessionExists (importFile db (some p) b upr now).2 p.id = true ∧
    SessionRepository.isStub (importFile db (some p) b upr now).2 p.id = false ∧
    ∀ msg ∈ p.messages,
      (importFile db (some p) b upr now).2.messages.any
        (fun m => m.uuid == msg.uuid) = true := by
  rw [importFile]
  have hcond : (b && SessionRepository.sessionExists db p.id &&
      !(SessionRepository.sessionExists db p.id &&
        SessionRepository.isStub db p.id)) = false := by
    cases b <;> cases hE : SessionRepository.sessionExists db p.id <;>
      cases hS : SessionRepository.isStub db p.id <;> simp_all
  simp only [hcond, Bool.false_eq_true, if_false]
  have hframe := resolveProject_frame db p upr
  have hstep := sessionStep_exists_isStub db (resolveProject db p upr).2 p
    (sessionInputOf p (resolveProject db p upr).1 now) hframe.1 rfl rfl
  have hsessions2 := (createMany_fold_frame (messageInputsOf p)
    (0, sessionStep db (resolveProject db p upr).2 p
      (sessionInputOf p (resolveProject db p upr).1 now))).1
  have hcm := exists_isStub_congr
    (MessageRepository.createMany
      (sessionStep db (resolveProject db p upr).2 p
        (sessionInputOf p (resolveProject db p upr).1 now)) (messageInputsOf p)).2
    (sessionStep db (resolveProject db p upr).2 p
      (sessionInputOf p (resolveProject db p upr).1 now))
    hsessions2 p.id
  have hupd := exists_isStub_after_update
    (MessageRepository.createMany
      (sessionStep db (resolveProject db p upr).2 p
        (sessionInputOf p (resolveProject db p upr).1 now)) (messageInputsOf p)).2
    p.id p.id
    { ended_at := none
      message_count := some (MessageRepository.createMany
        (sessionStep db (resolveProject db p upr).2 p
          (sessionInputOf p (resolveProject db p upr).1 now)) (messageInputsOf p)).1
      title := none
      summary := none
      is_title_auto_generated := none }
  refine ⟨?_, ?_, ?_⟩
  · rw [hupd.1, hcm.1, hstep.1]
  · rw [hupd.2, hcm.2, hstep.2]
  · intro msg hmsg
    exact createMany_fold_uuid_present (messageInputsOf p)
      (0, sessionStep db (resolveProject db p upr).2 p
        (sessionInputOf p (resolveProject db p upr).1 now)) _
      (List.mem_map_of_mem _ hmsg)

end ImportService

/-- C1: idempotent re-import.  After a first importFile run on a parsed file that
was not skipped by the existence check, running importFile on the same parsed
file again returns 0 and leaves the stored message rows — hence the
conversation's stored message count — exactly as after the first run: with
skipExisting = true the second run returns 0 before touching messages, and with
skipExisting = false every re-inserted message is skipped by the unique-uuid
guard in createMany. -/
theorem importFile_reimport_idempotent (db : Db) (p : ParsedSession)
    (b1 b2 upr1 upr2 : Bool) (n1 n2 : String)
    (h : (b1 && SessionRepository.sessionExists db p.id &&
          !(SessionRepository.isStub db p.id)) = false) :
    (ImportService.importFile
        ((ImportService.importFile db (some p) b1 upr1 n1).2) (some p) b2 upr2 n2).1 =
      some 0 ∧
    (ImportService.importFile
        ((ImportService.importFile db (some p) b1 upr1 n1).2)
        (some p) b2 upr2 n2).2.messages =
      ((ImportService.importFile db (some p) b1 upr1 n1).2).messages := by
  obtain ⟨hex, hstub, hpres⟩ := ImportService.importFile_proceeds_facts db p b1 upr1 n1 h
  exact ImportService.importFile_all_present _ p b2 upr2 n2 hex hstub hpres

/-- Witness for C1: importing a concrete two-message transcript into an empty
database and re-importing it with skipExisting = false returns 0. -/
theorem importFile_reimport_idempotent_witness :
    (ImportService.importFile
        ((ImportService.importFile exEmptyDb (some exParsed) true true "N1").2)
        (some exParsed) false true "N2").1 = some 0 :=
  (importFile_reimport_idempotent exEmptyDb exParsed true false true true "N1" "N2"
    (by decide)).1

namespace ImportService

lemma findById_congr (dbA dbB : Db) (h : dbA.sessions = dbB.sessions) (x : String) :
    SessionRepository.findById dbA x = SessionRepository.findById dbB x := by
  rw [SessionRepository.findById, SessionRepository.findById, h]

lemma sessionStep_messages (db dbProj : Db) (p : ParsedSession)
    (input : CreateSessionInput) :
    (sessionStep db dbProj p input).messages = dbProj.messages := by
  rw [sessionStep]
  split
  · rfl
  · split <;> rfl

lemma sessionStep_session_tags (db dbProj : Db) (p : ParsedSession)
    (input : CreateSessionInput) :
    (sessionStep db dbProj p input).session_tags = dbProj.session_tags := by
  rw [sessionStep]
  split
  · rfl
  · split <;> rfl

end ImportService

/-- C3 (counterexample): re-importing an already-imported two-message transcript
with skipExisting = false persists message_count = 0 (the number inserted by
that call) on the session, while 2 message rows remain stored for it — the
persisted denormalized count is not a recomputation of the stored rows. -/
theorem message_count_not_recomputed_cex :
    ((SessionRepository.findById
        (ImportService.importFile
          ((ImportService.importFile exEmptyDb (some exParsed) true true "N1").2)
          (some exParsed) false true "N2").2 "s").map Session.message_count =
      some 0) ∧
    ((MessageRepository.messagesOf
        (ImportService.importFile
          ((ImportService.importFile exEmptyDb (some exParsed) true true "N1").2)
          (some exParsed) false true "N2").2 "s").length = 2) := by
  decide

/-- C3 (amended): after an importFile call that reaches message insertion, the
conversation's persisted message count equals the number of messages inserted by
this call (createMany's return value), which is the growth of the messages
table — not a recomputation of all rows stored for the session. -/
theorem importFile_message_count_eq_inserted (db : Db) (p : ParsedSession)
    (b upr : Bool) (now : String)
    (h : (b && SessionRepository.sessionExists db p.id &&
          !(SessionRepository.isStub db p.id)) = false) :
    ∃ created,
      (ImportService.importFile db (some p) b upr now).1 = some created ∧
      (SessionRepository.findById
          (ImportService.importFile db (some p) b upr now).2 p.id).map
        Session.message_count = some created ∧
      (ImportService.importFile db (some p) b upr now).2.messages.length =
        db.messages.length + created := by
  rw [ImportService.importFile]
  have hcond : (b && SessionRepository.sessionExists db p.id &&
      !(SessionRepository.sessionExists db p.id &&
        SessionRepository.isStub db p.id)) = false := by
    cases b <;> cases hE : SessionRepository.sessionExists db p.id <;>
      cases hS : SessionRepository.isStub db p.id <;> simp_all
  simp only [hcond, Bool.false_eq_true, if_false]
  have hframe := ImportService.resolveProject_frame db p upr
  have hstep := ImportService.sessionStep_exists_isStub db
    (ImportService.resolveProject db p upr).2 p
    (ImportService.sessionInputOf p (ImportService.resolveProject db p upr).1 now)
    hframe.1 rfl rfl
  set db2 := ImportService.sessionStep db (ImportService.resolveProject db p upr).2 p
    (ImportService.sessionInputOf p (ImportService.resolveProject db p upr).1 now)
    with hdb2
  set cm := MessageRepository.createMany db2 (ImportService.messageInputsOf p)
    with hcmdef
  refine ⟨cm.1, rfl, ?_, ?_⟩
  · have hex2 : SessionRepository.sessionExists cm.2 p.id = true := by
      have hsess := (ImportService.createMany_fold_frame
        (ImportService.messageInputsOf p) (0, db2)).1
      rw [(ImportService.exists_isStub_congr cm.2 db2 hsess p.id).1]
      exact hstep.1
    rw [ImportService.sessionExists_eq_isSome] at hex2
    rcases hfind : SessionRepository.findById cm.2 p.id with _ | r
    · rw [hfind] at hex2
      simp at hex2
    · have hrid : (r.id == p.id) = true :=
        ImportService.find?_pred_of_eq_some (fun s => s.id == p.id) cm.2.sessions r
          (by rw [← SessionRepository.findById]; exact hfind)
      have hmap := ImportService.findById_map_rows cm.2 p.id p.id
        (fun r => SessionRepository.applyUpdate r
          { ended_at := none, message_count := some cm.1, title := none,
            summary := none, is_title_auto_generated := none }) (fun r => rfl)
      rw [SessionRepository.update, hmap, hfind]
      simp only [Option.map_some']
      rw [if_pos hrid]
      simp [SessionRepository.applyUpdate]
  · have hcount := ImportService.createMany_fold_count
      (ImportService.messageInputsOf p) (0, db2)
    have hfold : cm = (ImportService.messageInputsOf p).foldl
        MessageRepository.createManyStep (0, db2) := by
      rw [hcmdef, MessageRepository.createMany]
    rw [← hfold] at hcount
    have hmsgs2 : db2.messages = db.messages := by
      rw [hdb2, ImportService.sessionStep_messages]
      exact hframe.2.1
    have hupd : (SessionRepository.update cm.2 p.id
        { ended_at := none, message_count := some cm.1, title := none,
          summary := none, is_title_auto_generated := none }).messages =
        cm.2.messages := rfl
    rw [hupd]
    simp only [hmsgs2] at hcount
    omega

/-- Witness for C3 (amended) at a concrete fresh import: two messages inserted,
persisted count 2, messages table grown by 2. -/
theorem importFile_message_count_eq_inserted_witness :
    ∃ created,
      (ImportService.importFile exEmptyDb (some exParsed) true true "N1").1 =
        some created ∧
      (SessionRepository.findById
          (ImportService.importFile exEmptyDb (some exParsed) true true "N1").2
          exParsed.id).map Session.message_count = some created ∧
      (ImportService.importFile exEmptyDb (some exParsed) true true "N1").2.messages.length =
        exEmptyDb.messages.length + created :=
  importFile_message_count_eq_inserted exEmptyDb exParsed true true "N1" (by decide)

/-- C8: stub promotion is non-destructive to out-of-band metadata.  When a
conversation exists as a stub, importFile promotes it via updateFromImport,
which rewrites only the import metadata and clears the stub flag: afterwards the
session's tag associations, title and summary are exactly as before, the stub
flag is cleared, and the file reference is the imported file's. -/
theorem stub_promotion_preserves_user_metadata (db : Db) (p : ParsedSession)
    (b upr : Bool) (now : String)
    (hex : SessionRepository.sessionExists db p.id = true)
    (hstub : SessionRepository.isStub db p.id = true) :
    (ImportService.importFile db (some p) b upr now).2.session_tags =
      db.session_tags ∧
    (SessionRepository.findById
        (ImportService.importFile db (some p) b upr now).2 p.id).map Session.title =
      (SessionRepository.findById db p.id).map Session.title ∧
    (SessionRepository.findById
        (ImportService.importFile db (some p) b upr now).2 p.id).map Session.summary =
      (SessionRepository.findById db p.id).map Session.summary ∧
    (SessionRepository.findById
        (ImportService.importFile db (some p) b upr now).2 p.id).map Session.is_stub =
      some false ∧
    (SessionRepository.findById
        (ImportService.importFile db (some p) b upr now).2 p.id).map Session.file_path =
      some p.file_path := by
  rw [ImportService.importFile]
  have hcond : (b && SessionRepository.sessionExists db p.id &&
      !(SessionRepository.sessionExists db p.id &&
        SessionRepository.isStub db p.id)) = false := by
    rw [hex, hstub]
    simp
  simp only [hcond, Bool.false_eq_true, if_false]
  have hframe := ImportService.resolveProject_frame db p upr
  set dbp := (ImportService.resolveProject db p upr).2 with hdbp
  set inp := ImportService.sessionInputOf p (ImportService.resolveProject db p upr).1 now
    with hinp
  have hstep_eq : ImportService.sessionStep db dbp p inp =
      SessionRepository.updateFromImport dbp p.id inp := by
    rw [ImportService.sessionStep, hex, hstub]
    simp
  rw [hstep_eq]
  set db2m := SessionRepository.updateFromImport dbp p.id inp with hdb2m
  set cm := MessageRepository.createMany db2m (ImportService.messageInputsOf p)
    with hcmdef
  rw [ImportService.sessionExists_eq_isSome] at hex
  rcases hfind : SessionRepository.findById db p.id with _ | r
  · rw [hfind] at hex
    simp at hex
  · have hrid : (r.id == p.id) = true :=
      ImportService.find?_pred_of_eq_some (fun s => s.id == p.id) db.sessions r
        (by rw [← SessionRepository.findById]; exact hfind)
    have hfinddbp : SessionRepository.findById dbp p.id = some r := by
      rw [ImportService.findById_congr dbp db hframe.1]
      exact hfind
    have hfind2 : SessionRepository.findById db2m p.id = some
        { r with
          file_path := inp.file_path
          project_id := inp.project_id
          project_path := inp.project_path
          cwd := inp.cwd
          started_at := inp.started_at
          ended_at := inp.ended_at
          message_count := inp.message_count.getD 0
          is_stub := false } := by
      rw [hdb2m, SessionRepository.updateFromImport,
        ImportService.findById_map_rows dbp p.id p.id
          (fun r =>
            { r with
              file_path := inp.file_path
              project_id := inp.project_id
              project_path := inp.project_path
              cwd := inp.cwd
              started_at := inp.started_at
              ended_at := inp.ended_at
              message_count := inp.message_count.getD 0
              is_stub := false })
          (fun r => rfl), hfinddbp]
      simp only [Option.map_some']
      rw [if_pos hrid]
    have hfold : cm = (ImportService.messageInputsOf p).foldl
        MessageRepository.createManyStep (0, db2m) := by
      rw [hcmdef, MessageRepository.createMany]
    have hsessions_cm : cm.2.sessions = db2m.sessions := by
      rw [hfold]
      exact (ImportService.createMany_fold_frame
        (ImportService.messageInputsOf p) (0, db2m)).1
    have htags_cm : cm.2.session_tags = db2m.session_tags := by
      rw [hfold]
      exact (ImportService.createMany_fold_frame
        (ImportService.messageInputsOf p) (0, db2m)).2.2
    have hfindcm : SessionRepository.findById cm.2 p.id = some
        { r with
          file_path := inp.file_path
          project_id := inp.project_id
          project_path := inp.project_path
          cwd := inp.cwd
          started_at := inp.started_at
          ended_at := inp.ended_at
          message_count := inp.message_count.getD 0
          is_stub := false } := by
      rw [ImportService.findById_congr cm.2 db2m hsessions_cm]
      exact hfind2
    have hfind4 : SessionRepository.findById
        (SessionRepository.update cm.2 p.id
          { ended_at := none, message_count := some cm.1, title := none,
            summary := none, is_title_auto_generated := none }) p.id = some
        (SessionRepository.applyUpdate
          { r with
            file_path := inp.file_path
            project_id := inp.project_id
            project_path := inp.project_path
            cwd := inp.cwd
            started_at := inp.started_at
            ended_at := inp.ended_at
            message_count := inp.message_count.getD 0
            is_stub := false }
          { ended_at := none, message_count := some cm.1, title := none,
            summary := none, is_title_auto_generated := none }) := by
      rw [SessionRepository.update,
        ImportService.findById_map_rows cm.2 p.id p.id
          (fun r => SessionRepository.applyUpdate r
            { ended_at := none, message_count := some cm.1, title := none,
              summary := none, is_title_auto_generated := none })
          (fun r => rfl), hfindcm]
      simp only [Option.map_some']
      rw [if_pos hrid]
    refine ⟨?_, ?_, ?_, ?_, ?_⟩
    · have h1 : (SessionRepository.update cm.2 p.id
          { ended_at := none, message_count := some cm.1, title := none,
            summary := none, is_title_auto_generated := none }).session_tags =
          cm.2.session_tags := rfl
      rw [h1, htags_cm, hdb2m]
      have h2 : (SessionRepository.updateFromImport dbp p.id inp).session_tags =
          dbp.session_tags := rfl
      rw [h2]
      exact hframe.2.2
    · rw [hfind4]
      simp [SessionRepository.applyUpdate]
    · rw [hfind4]
      simp [SessionRepository.applyUpdate]
    · rw [hfind4]
      simp [SessionRepository.applyUpdate]
    · rw [hfind4]
      simp [SessionRepository.applyUpdate, hinp, ImportService.sessionInputOf]

/-- Witness for C8: a stub carrying tag 7, a title and a summary, promoted by a
concrete import, keeps them. -/
theorem stub_promotion_preserves_user_metadata_witness :
    (ImportService.importFile exStubDb (some exParsed) true true "N1").2.session_tags =
      exStubDb.session_tags ∧
    (SessionRepository.findById
        (ImportService.importFile exStubDb (some exParsed) true true "N1").2
        exParsed.id).map Session.title =
      (SessionRepository.findById exStubDb exParsed.id).map Session.title := by
  have h := stub_promotion_preserves_user_metadata exStubDb exParsed true true "N1"
    (by decide) (by decide)
  exact ⟨h.1, h.2.1⟩

namespace JsonlParser

lemma unitsLt_trans : ∀ a b c : List Nat,
    unitsLt a b = true → unitsLt b c = true → unitsLt a c = true := by
  intro a
  induction a with
  | nil =>
    intro b c hab hbc
    cases b with
    | nil => simp [unitsLt] at hab
    | cons y ys =>
      cases c with
      | nil => simp [unitsLt] at hbc
      | cons z zs => rfl
  | cons x xs ih =>
    intro b c hab hbc
    cases b with
    | nil => simp [unitsLt] at hab
    | cons y ys =>
      cases c with
      | nil => simp [unitsLt] at hbc
      | cons z zs =>
        rw [unitsLt] at hab hbc ⊢
        by_cases hxy : x < y
        · simp only [hxy, if_true] at hab
          by_cases hyz : y < z
          · simp [Nat.lt_trans hxy hyz]
          · simp only [hyz, if_false] at hbc
            by_cases hzy : z < y
            · simp [hzy] at hbc
            · have : y = z := by omega
              subst this
              simp [hxy]
        · simp only [hxy, if_false] at hab
          by_cases hyx : y < x
          · simp [hyx] at hab
          · have hxy2 : x = y := by omega
            subst hxy2
            simp only [if_neg (by omega : ¬ x < x), if_neg] at hab
            by_cases hyz : x < z
            · simp [hyz]
            · simp only [hyz, if_false] at hbc ⊢
              by_cases hzy : z < x
              · simp [hzy] at hbc
              · have : x = z := by omega
                subst this
                simp only [if_neg (by omega : ¬ x < x)] at hbc ⊢
                exact ih ys zs hab hbc

lemma unitsLt_false_trans : ∀ a b c : List Nat,
    unitsLt a b = false → unitsLt b c = false → unitsLt a c = false := by
  intro a
  induction a with
  | nil =>
    intro b c hab hbc
    cases b with
    | cons y ys => simp [unitsLt] at hab
    | nil =>
      cases c with
      | nil => rfl
      | cons z zs => simp [unitsLt] at hbc
  | cons x xs ih =>
    intro b c hab hbc
    cases c with
    | nil => rfl
    | cons z zs =>
      cases b with
      | nil => simp [unitsLt] at hbc
      | cons y ys =>
        rw [unitsLt] at hab hbc ⊢
        by_cases hxy : x < y
        · simp [hxy] at hab
        · by_cases hyz : y < z
          · simp [hyz] at hbc
          · by_cases hxz : x < z
            · exfalso
              omega
            · simp only [hxz, if_false]
              by_cases hzx : z < x
              · simp [hzx]
              · have hxy2 : x = y := by omega
                have hyz2 : y = z := by omega
                subst hxy2
                subst hyz2
                simp only [if_neg (by omega : ¬ x < x)] at hab hbc ⊢
                exact ih ys zs hab hbc

lemma jsLt_trans (a b c : String) (h1 : jsLt a b = true) (h2 : jsLt b c = true) :
    jsLt a c = true :=
  unitsLt_trans (jsCodeUnits a) (jsCodeUnits b) (jsCodeUnits c) h1 h2

lemma jsLt_false_trans (a b c : String) (h1 : jsLt a b = false)
    (h2 : jsLt b c = false) : jsLt a c = false :=
  unitsLt_false_trans (jsCodeUnits a) (jsCodeUnits b) (jsCodeUnits c) h1 h2

end JsonlParser

namespace JsonlParser

lemma captureSessionId_times (st : ParseState) (r : RawJsonlMessage) :
    (captureSessionId st r).startedAt = st.startedAt ∧
    (captureSessionId st r).endedAt = st.endedAt := by
  rw [captureSessionId]
  split <;> exact ⟨rfl, rfl⟩

lemma captureCwd_times (st : ParseState) (r : RawJsonlMessage) :
    (captureCwd st r).startedAt = st.startedAt ∧
    (captureCwd st r).endedAt = st.endedAt := by
  rw [captureCwd]
  split <;> exact ⟨rfl, rfl⟩

lemma retainMessage_times (st : ParseState) (r : RawJsonlMessage) :
    (retainMessage st r).startedAt = st.startedAt ∧
    (retainMessage st r).endedAt = st.endedAt := by
  rw [retainMessage]
  repeat' split
  all_goals exact ⟨rfl, rfl⟩

lemma trackStarted_startedAt (st : ParseState) (ts : String) :
    (trackStarted st ts).startedAt =
      (match st.startedAt with
       | none => some ts
       | some a => if jsLt ts a then some ts else some a) := by
  rw [trackStarted]
  rcases h : st.startedAt with _ | a
  · rfl
  · show (if jsLt ts a = true then ({ st with startedAt := some ts } : ParseState)
        else st).startedAt = if jsLt ts a = true then some ts else some a
    split
    · rfl
    · exact h

lemma trackStarted_endedAt (st : ParseState) (ts : String) :
    (trackStarted st ts).endedAt = st.endedAt := by
  rw [trackStarted]
  rcases h : st.startedAt with _ | a
  · rfl
  · show (if jsLt ts a = true then ({ st with startedAt := some ts } : ParseState)
        else st).endedAt = st.endedAt
    split <;> rfl

lemma trackEnded_startedAt (st : ParseState) (ts : String) :
    (trackEnded st ts).startedAt = st.startedAt := by
  rw [trackEnded]
  rcases h : st.endedAt with _ | a
  · rfl
  · show (if jsLt a ts = true then ({ st with endedAt := some ts } : ParseState)
        else st).startedAt = st.startedAt
    split <;> rfl

lemma trackEnded_endedAt (st : ParseState) (ts : String) :
    (trackEnded st ts).endedAt =
      (match st.endedAt with
       | none => some ts
       | some a => if jsLt a ts then some ts else some a) := by
  rw [trackEnded]
  rcases h : st.endedAt with _ | a
  · rfl
  · show (if jsLt a ts = true then ({ st with endedAt := some ts } : ParseState)
        else st).endedAt = if jsLt a ts = true then some ts else some a
    split
    · rfl
    · exact h

lemma trackTimestamps_startedAt (st : ParseState) (r : RawJsonlMessage) :
    (trackTimestamps st r).startedAt =
      (if strTruthy r.timestamp then
        (match st.startedAt with
         | none => some (r.timestamp.getD "")
         | some a =>
           if jsLt (r.timestamp.getD "") a then some (r.timestamp.getD "")
           else some a)
      else st.startedAt) := by
  rw [trackTimestamps]
  split
  · rw [trackEnded_startedAt, trackStarted_startedAt]
  · rfl

lemma trackTimestamps_endedAt (st : ParseState) (r : RawJsonlMessage) :
    (trackTimestamps st r).endedAt =
      (if strTruthy r.timestamp then
        (match st.endedAt with
         | none => some (r.timestamp.getD "")
         | some a =>
           if jsLt a (r.timestamp.getD "") then some (r.timestamp.getD "")
           else some a)
      else st.endedAt) := by
  rw [trackTimestamps]
  split
  · rw [trackEnded_endedAt, trackStarted_endedAt]
  · rfl

lemma processRecord_startedAt (st : ParseState) (r : RawJsonlMessage) :
    (processRecord st r).startedAt =
      (if r.type == some "summary" then st.startedAt
       else if r.type == some "system" || r.isMeta then st.startedAt
       else if strTruthy r.timestamp then
         (match st.startedAt with
          | none => some (r.timestamp.getD "")
          | some a =>
            if jsLt (r.timestamp.getD "") a then some (r.timestamp.getD "")
            else some a)
       else st.startedAt) := by
  rw [processRecord]
  split
  · rfl
  · split
    · rfl
    · rw [(retainMessage_times _ r).1, trackTimestamps_startedAt,
        (captureCwd_times _ r).1, (captureSessionId_times st r).1]

lemma processRecord_endedAt (st : ParseState) (r : RawJsonlMessage) :
    (processRecord st r).endedAt =
      (if r.type == some "summary" then st.endedAt
       else if r.type == some "system" || r.isMeta then st.endedAt
       else if strTruthy r.timestamp then
         (match st.endedAt with
          | none => some (r.timestamp.getD "")
          | some a =>
            if jsLt a (r.timestamp.getD "") then some (r.timestamp.getD "")
            else some a)
       else st.endedAt) := by
  rw [processRecord]
  split
  · rfl
  · split
    · rfl
    · rw [(retainMessage_times _ r).2, trackTimestamps_endedAt,
        (captureCwd_times _ r).2, (captureSessionId_times st r).2]

lemma tracked_cons_record (r : RawJsonlMessage) (rest : List RawLine) :
    trackedTimestamps (RawLine.record r :: rest) =
      (if r.type == some "summary" then trackedTimestamps rest
       else if r.type == some "system" || r.isMeta then trackedTimestamps rest
       else if strTruthy r.timestamp then
         r.timestamp.getD "" :: trackedTimestamps rest
       else trackedTimestamps rest) := by
  rfl

lemma tracked_cons_bad (rest : List RawLine) :
    trackedTimestamps (RawLine.bad :: rest) = trackedTimestamps rest := rfl

lemma jsMinFold_cons (acc : Option String) (t : String) (ts : List String) :
    jsMinFold acc (t :: ts) =
      jsMinFold
        (match acc with
         | none => some t
         | some m => if jsLt t m then some t else some m) ts := by
  rw [jsMinFold, jsMinFold, List.foldl_cons]

lemma jsMaxFold_cons (acc : Option String) (t : String) (ts : List String) :
    jsMaxFold acc (t :: ts) =
      jsMaxFold
        (match acc with
         | none => some t
         | some m => if jsLt m t then some t else some m) ts := by
  rw [jsMaxFold, jsMaxFold, List.foldl_cons]

lemma fold_startedAt : ∀ (lines : List RawLine) (st : ParseState),
    (lines.foldl parseStep st).startedAt =
      jsMinFold st.startedAt (trackedTimestamps lines) := by
  intro lines
  induction lines with
  | nil => intro st; rfl
  | cons l rest ih =>
    intro st
    rw [List.foldl_cons]
    cases l with
    | bad =>
      rw [ih, tracked_cons_bad]
      rfl
    | record r =>
      have hstep : parseStep st (RawLine.record r) = processRecord st r := rfl
      rw [hstep, ih, tracked_cons_record, processRecord_startedAt]
      by_cases h1 : (r.type == some "summary") = true
      · rw [if_pos h1, if_pos h1]
      · rw [if_neg h1, if_neg h1]
        by_cases h2 : (r.type == some "system" || r.isMeta) = true
        · rw [if_pos h2, if_pos h2]
        · rw [if_neg h2, if_neg h2]
          by_cases h3 : strTruthy r.timestamp = true
          · rw [if_pos h3, if_pos h3, jsMinFold_cons]
          · rw [if_neg h3, if_neg h3]

lemma fold_endedAt : ∀ (lines : List RawLine) (st : ParseState),
    (lines.foldl parseStep st).endedAt =
      jsMaxFold st.endedAt (trackedTimestamps lines) := by
  intro lines
  induction lines with
  | nil => intro st; rfl
  | cons l rest ih =>
    intro st
    rw [List.foldl_cons]
    cases l with
    | bad =>
      rw [ih, tracked_cons_bad]
      rfl
    | record r =>
      have hstep : parseStep st (RawLine.record r) = processRecord st r := rfl
      rw [hstep, ih, tracked_cons_record, processRecord_endedAt]
      by_cases h1 : (r.type == some "summary") = true
      · rw [if_pos h1, if_pos h1]
      · rw [if_neg h1, if_neg h1]
        by_cases h2 : (r.type == some "system" || r.isMeta) = true
        · rw [if_pos h2, if_pos h2]
        · rw [if_neg h2, if_neg h2]
          by_cases h3 : strTruthy r.timestamp = true
          · rw [if_pos h3, if_pos h3, jsMaxFold_cons]
          · rw [if_neg h3, if_neg h3]

end JsonlParser


namespace JsonlParser

lemma unitsLt_irrefl : ∀ a : List Nat, unitsLt a a = false := by
  intro a
  induction a with
  | nil => rfl
  | cons x xs ih =>
    rw [unitsLt]
    simp only [Nat.lt_irrefl, if_false]
    exact ih

lemma jsLt_irrefl (s : String) : jsLt s s = false := unitsLt_irrefl (jsCodeUnits s)

lemma jsMinFold_spec : ∀ (ts : List String) (acc : Option String) (m : String),
    jsMinFold acc ts = some m →
    ((acc = some m ∨ m ∈ ts) ∧
     (∀ t ∈ ts, jsLt t m = false) ∧
     (∀ a, acc = some a → jsLt a m = false)) := by
  intro ts
  induction ts with
  | nil =>
    intro acc m h
    rw [jsMinFold] at h
    refine ⟨Or.inl h, by simp, ?_⟩
    intro a ha
    rw [ha] at h
    have hm : a = m := by simpa using h
    subst hm
    exact jsLt_irrefl a
  | cons t rest ih =>
    intro acc m h
    rw [jsMinFold_cons] at h
    rcases acc with _ | m0
    · have h' : jsMinFold (some t) rest = some m := h
      obtain ⟨ihm, ihb, iha⟩ := ih (some t) m h'
      have hbt : jsLt t m = false := iha t rfl
      refine ⟨?_, ?_, ?_⟩
      · rcases ihm with h1 | h1
        · have ht : t = m := by simpa using h1
          exact Or.inr (by rw [ht]; exact List.mem_cons_self m rest)
        · exact Or.inr (List.mem_cons_of_mem t h1)
      · intro t' ht'
        rcases List.mem_cons.mp ht' with h1 | h1
        · rw [h1]; exact hbt
        · exact ihb t' h1
      · intro a ha
        simp at ha
    · have h' : jsMinFold (if jsLt t m0 = true then some t else some m0) rest = some m := h
      by_cases hlt : jsLt t m0 = true
      · rw [if_pos hlt] at h'
        obtain ⟨ihm, ihb, iha⟩ := ih (some t) m h'
        have hbt : jsLt t m = false := iha t rfl
        have hbm0 : jsLt m0 m = false := by
          by_cases hc : jsLt m0 m = true
          · exfalso
            have htr := jsLt_trans t m0 m hlt hc
            rw [hbt] at htr
            cases htr
          · simpa using hc
        refine ⟨?_, ?_, ?_⟩
        · rcases ihm with h1 | h1
          · have ht : t = m := by simpa using h1
            exact Or.inr (by rw [ht]; exact List.mem_cons_self m rest)
          · exact Or.inr (List.mem_cons_of_mem t h1)
        · intro t' ht'
          rcases List.mem_cons.mp ht' with h1 | h1
          · rw [h1]; exact hbt
          · exact ihb t' h1
        · intro a ha
          have hm : m0 = a := by simpa using ha
          subst hm
          exact hbm0
      · have hltf : jsLt t m0 = false := by simpa using hlt
        rw [if_neg hlt] at h'
        obtain ⟨ihm, ihb, iha⟩ := ih (some m0) m h'
        have hbm0 : jsLt m0 m = false := iha m0 rfl
        have hbt : jsLt t m = false := jsLt_false_trans t m0 m hltf hbm0
        refine ⟨?_, ?_, ?_⟩
        · rcases ihm with h1 | h1
          · exact Or.inl h1
          · exact Or.inr (List.mem_cons_of_mem t h1)
        · intro t' ht'
          rcases List.mem_cons.mp ht' with h1 | h1
          · rw [h1]; exact hbt
          · exact ihb t' h1
        · intro a ha
          have hm : m0 = a := by simpa using ha
          subst hm
          exact hbm0

lemma jsMaxFold_spec : ∀ (ts : List String) (acc : Option String) (m : String),
    jsMaxFold acc ts = some m →
    ((acc = some m ∨ m ∈ ts) ∧
     (∀ t ∈ ts, jsLt m t = false) ∧
     (∀ a, acc = some a → jsLt m a = false)) := by
  intro ts
  induction ts with
  | nil =>
    intro acc m h
    rw [jsMaxFold] at h
    refine ⟨Or.inl h, by simp, ?_⟩
    intro a ha
    rw [ha] at h
    have hm : a = m := by simpa using h
    subst hm
    exact jsLt_irrefl a
  | cons t rest ih =>
    intro acc m h
    rw [jsMaxFold_cons] at h
    rcases acc with _ | m0
    · have h' : jsMaxFold (some t) rest = some m := h
      obtain ⟨ihm, ihb, iha⟩ := ih (some t) m h'
      have hbt : jsLt m t = false := iha t rfl
      refine ⟨?_, ?_, ?_⟩
      · rcases ihm with h1 | h1
        · have ht : t = m := by simpa using h1
          exact Or.inr (by rw [ht]; exact List.mem_cons_self m rest)
        · exact Or.inr (List.mem_cons_of_mem t h1)
      · intro t' ht'
        rcases List.mem_cons.mp ht' with h1 | h1
        · rw [h1]; exact hbt
        · exact ihb t' h1
      · intro a ha
        simp at ha
    · have h' : jsMaxFold (if jsLt m0 t = true then some t else some m0) rest = some m := h
      by_cases hlt : jsLt m0 t = true
      · rw [if_pos hlt] at h'
        obtain ⟨ihm, ihb, iha⟩ := ih (some t) m h'
        have hbt : jsLt m t = false := iha t rfl
        have hbm0 : jsLt m m0 = false := by
          by_cases hc : jsLt m m0 = true
          · exfalso
            have htr := jsLt_trans m m0 t hc hlt
            rw [hbt] at htr
            cases htr
          · simpa using hc
        refine ⟨?_, ?_, ?_⟩
        · rcases ihm with h1 | h1
          · have ht : t = m := by simpa using h1
            exact Or.inr (by rw [ht]; exact List.mem_cons_self m rest)
          · exact Or.inr (List.mem_cons_of_mem t h1)
        · intro t' ht'
          rcases List.mem_cons.mp ht' with h1 | h1
          · rw [h1]; exact hbt
          · exact ihb t' h1
        · intro a ha
          have hm : m0 = a := by simpa using ha
          subst hm
          exact hbm0
      · have hltf : jsLt m0 t = false := by simpa using hlt
        rw [if_neg hlt] at h'
        obtain ⟨ihm, ihb, iha⟩ := ih (some m0) m h'
        have hbm0 : jsLt m m0 = false := iha m0 rfl
        have hbt : jsLt m t = false := jsLt_false_trans m m0 t hbm0 hltf
        refine ⟨?_, ?_, ?_⟩
        · rcases ihm with h1 | h1
          · exact Or.inl h1
          · exact Or.inr (List.mem_cons_of_mem t h1)
        · intro t' ht'
          rcases List.mem_cons.mp ht' with h1 | h1
          · rw [h1]; exact hbt
          · exact ihb t' h1
        · intro a ha
          have hm : m0 = a := by simpa using ha
          subst hm
          exact hbm0

end JsonlParser

namespace JsonlParser

lemma captureSessionId_messages (st : ParseState) (r : RawJsonlMessage) :
    (captureSessionId st r).messages = st.messages := by
  rw [captureSessionId]
  split <;> rfl

lemma captureCwd_messages (st : ParseState) (r : RawJsonlMessage) :
    (captureCwd st r).messages = st.messages := by
  rw [captureCwd]
  split <;> rfl

lemma trackStarted_messages (st : ParseState) (ts : String) :
    (trackStarted st ts).messages = st.messages := by
  rw [trackStarted]
  rcases h : st.startedAt with _ | a
  · rfl
  · show (if jsLt ts a = true then ({ st with startedAt := some ts } : ParseState)
        else st).messages = st.messages
    split <;> rfl

lemma trackEnded_messages (st : ParseState) (ts : String) :
    (trackEnded st ts).messages = st.messages := by
  rw [trackEnded]
  rcases h : st.endedAt with _ | a
  · rfl
  · show (if jsLt a ts = true then ({ st with endedAt := some ts } : ParseState)
        else st).messages = st.messages
    split <;> rfl

lemma trackTimestamps_messages (st : ParseState) (r : RawJsonlMessage) :
    (trackTimestamps st r).messages = st.messages := by
  rw [trackTimestamps]
  split
  · rw [trackEnded_messages, trackStarted_messages]
  · rfl

lemma parseMessage_none_of_no_ts (r : RawJsonlMessage) (sid : Option String)
    (h : strTruthy r.timestamp = false) : parseMessage r sid = none := by
  have hc : (!strTruthy r.uuid || !strTruthy r.timestamp) = true := by
    rw [h]
    simp
  rw [parseMessage, if_pos hc]

lemma retainMessage_messages_of_no_ts (st : ParseState) (r : RawJsonlMessage)
    (h : strTruthy r.timestamp = false) :
    (retainMessage st r).messages = st.messages := by
  rw [retainMessage]
  split
  · rw [parseMessage_none_of_no_ts r st.sessionId h]
  · rfl

lemma processRecord_messages_untracked (st : ParseState) (r : RawJsonlMessage)
    (h : ((r.type == some "summary") = true) ∨
      ((r.type == some "system" || r.isMeta) = true) ∨
      strTruthy r.timestamp = false) :
    (processRecord st r).messages = st.messages := by
  rw [processRecord]
  by_cases h1 : (r.type == some "summary") = true
  · rw [if_pos h1]
  · rw [if_neg h1]
    by_cases h2 : (r.type == some "system" || r.isMeta) = true
    · rw [if_pos h2]
    · rw [if_neg h2]
      have h3 : strTruthy r.timestamp = false := by
        rcases h with h | h | h
        · exact absurd h h1
        · exact absurd h h2
        · exact h
      rw [retainMessage_messages_of_no_ts _ r h3, trackTimestamps_messages,
        captureCwd_messages, captureSessionId_messages]

lemma fold_messages_of_tracked_nil : ∀ (lines : List RawLine) (st : ParseState),
    trackedTimestamps lines = [] →
    (lines.foldl parseStep st).messages = st.messages := by
  intro lines
  induction lines with
  | nil => intro st _; rfl
  | cons l rest ih =>
    intro st h
    rw [List.foldl_cons]
    cases l with
    | bad =>
      rw [tracked_cons_bad] at h
      exact ih st h
    | record r =>
      rw [tracked_cons_record] at h
      have hstep : parseStep st (RawLine.record r) = processRecord st r := rfl
      rw [hstep]
      by_cases h1 : (r.type == some "summary") = true
      · rw [if_pos h1] at h
        rw [ih _ h, processRecord_messages_untracked st r (Or.inl h1)]
      · rw [if_neg h1] at h
        by_cases h2 : (r.type == some "system" || r.isMeta) = true
        · rw [if_pos h2] at h
          rw [ih _ h, processRecord_messages_untracked st r (Or.inr (Or.inl h2))]
        · rw [if_neg h2] at h
          by_cases h3 : strTruthy r.timestamp = true
          · rw [if_pos h3] at h
            cases h
          · have h3f : strTruthy r.timestamp = false := by simpa using h3
            rw [if_neg h3] at h
            rw [ih _ h, processRecord_messages_untracked st r (Or.inr (Or.inr h3f))]

lemma jsMinFold_isSome : ∀ (ts : List String) (m0 : String),
    ∃ m, jsMinFold (some m0) ts = some m := by
  intro ts
  induction ts with
  | nil => intro m0; exact ⟨m0, rfl⟩
  | cons t rest ih =>
    intro m0
    have h' : jsMinFold (some m0) (t :: rest) =
        jsMinFold (if jsLt t m0 = true then some t else some m0) rest := by
      rw [jsMinFold_cons]
    by_cases hlt : jsLt t m0 = true
    · rw [h', if_pos hlt]
      exact ih t
    · rw [h', if_neg hlt]
      exact ih m0

lemma jsMaxFold_isSome : ∀ (ts : List String) (m0 : String),
    ∃ m, jsMaxFold (some m0) ts = some m := by
  intro ts
  induction ts with
  | nil => intro m0; exact ⟨m0, rfl⟩
  | cons t rest ih =>
    intro m0
    have h' : jsMaxFold (some m0) (t :: rest) =
        jsMaxFold (if jsLt m0 t = true then some t else some m0) rest := by
      rw [jsMaxFold_cons]
    by_cases hlt : jsLt m0 t = true
    · rw [h', if_pos hlt]
      exact ih t
    · rw [h', if_neg hlt]
      exact ih m0

lemma jsMinFold_none_isSome (ts : List String) (h : ts ≠ []) :
    ∃ m, jsMinFold none ts = some m := by
  cases ts with
  | nil => exact absurd rfl h
  | cons t rest =>
    have h' : jsMinFold none (t :: rest) = jsMinFold (some t) rest := by
      rw [jsMinFold_cons]
    rw [h']
    exact jsMinFold_isSome rest t

lemma jsMaxFold_none_isSome (ts : List String) (h : ts ≠ []) :
    ∃ m, jsMaxFold none ts = some m := by
  cases ts with
  | nil => exact absurd rfl h
  | cons t rest =>
    have h' : jsMaxFold none (t :: rest) = jsMaxFold (some t) rest := by
      rw [jsMaxFold_cons]
    rw [h']
    exact jsMaxFold_isSome rest t

end JsonlParser

/-- C7 (counterexample to the original claim): parseFile's started_at is NOT the
minimum over all timestamp-carrying records.  In exLines the system record
carries the strictly earliest timestamp, yet parseLines reports the user
record's later timestamp as started_at, because the system/meta `continue`
happens before any timestamp tracking. -/
theorem parseFile_system_timestamps_excluded_cex :
    (JsonlParser.parseLines "f.jsonl" exLines).map ParsedSession.started_at =
      some (some "2020-01-02T00:00:00Z") ∧
    JsonlParser.RawLine.record exSystemRecord ∈ exLines ∧
    JsonlParser.strTruthy exSystemRecord.timestamp = true ∧
    jsLt (exSystemRecord.timestamp.getD "") "2020-01-02T00:00:00Z" = true := by
  decide

/-- C7 (amended): for every parsed file, parseLines computes started_at and
ended_at as the minimum resp. maximum (under JavaScript string comparison) of
the timestamps of exactly the tracked records: successfully parsed lines that
are not summary records and not system/meta records and that carry a truthy
timestamp — whether or not they are retained as content.  System/meta records
are skipped before timestamp tracking, so their timestamps never participate. -/
theorem parseFile_minmax_over_nonsystem_tracked (filePath : String)
    (lines : List JsonlParser.RawLine) (s : ParsedSession)
    (h : JsonlParser.parseLines filePath lines = some s) :
    (∃ m, s.started_at = some m ∧ jsMinOk m (JsonlParser.trackedTimestamps lines)) ∧
    (∃ m, s.ended_at = some m ∧ jsMaxOk m (JsonlParser.trackedTimestamps lines)) := by
  rw [JsonlParser.parseLines] at h
  by_cases he : lines.isEmpty = true
  · rw [if_pos he] at h
    cases h
  · rw [if_neg he] at h
    simp only [] at h
    have hfun : (fun (st : JsonlParser.ParseState) (l : JsonlParser.RawLine) =>
        match l with
        | .bad => st
        | .record r => JsonlParser.processRecord st r) = parseStep := rfl
    rw [hfun] at h
    generalize hq : lines.foldl parseStep JsonlParser.initState = q at h
    by_cases hg : (!JsonlParser.strTruthy q.sessionId || q.messages.isEmpty) = true
    · rw [if_pos hg] at h
      cases h
    · rw [if_neg hg] at h
      have hs := Option.some.inj h
      have hstart : s.started_at = q.startedAt := by rw [← hs]
      have hend : s.ended_at = q.endedAt := by rw [← hs]
      have hmsgs : q.messages ≠ [] := by
        intro hnil
        rw [hnil] at hg
        simp at hg
      have htr : JsonlParser.trackedTimestamps lines ≠ [] := by
        intro htnil
        apply hmsgs
        have hfm := JsonlParser.fold_messages_of_tracked_nil lines JsonlParser.initState htnil
        rw [hq] at hfm
        exact hfm
      obtain ⟨mn, hmn⟩ := JsonlParser.jsMinFold_none_isSome _ htr
      obtain ⟨mx, hmx⟩ := JsonlParser.jsMaxFold_none_isSome _ htr
      have hqs : q.startedAt = jsMinFold none (JsonlParser.trackedTimestamps lines) := by
        have hh := JsonlParser.fold_startedAt lines JsonlParser.initState
        rw [hq] at hh
        exact hh
      have hqe : q.endedAt = jsMaxFold none (JsonlParser.trackedTimestamps lines) := by
        have hh := JsonlParser.fold_endedAt lines JsonlParser.initState
        rw [hq] at hh
        exact hh
      have hmem1 : mn ∈ JsonlParser.trackedTimestamps lines := by
        obtain ⟨hm, _, _⟩ := JsonlParser.jsMinFold_spec _ _ _ hmn
        rcases hm with habs | hm
        · simp at habs
        · exact hm
      have hbound1 : ∀ t ∈ JsonlParser.trackedTimestamps lines, jsLt t mn = false :=
        (JsonlParser.jsMinFold_spec _ _ _ hmn).2.1
      have hmem2 : mx ∈ JsonlParser.trackedTimestamps lines := by
        obtain ⟨hm, _, _⟩ := JsonlParser.jsMaxFold_spec _ _ _ hmx
        rcases hm with habs | hm
        · simp at habs
        · exact hm
      have hbound2 : ∀ t ∈ JsonlParser.trackedTimestamps lines, jsLt mx t = false :=
        (JsonlParser.jsMaxFold_spec _ _ _ hmx).2.1
      exact ⟨⟨mn, by rw [hstart, hqs, hmn], hmem1, hbound1⟩,
             ⟨mx, by rw [hend, hqe, hmx], hmem2, hbound2⟩⟩

/-- Witness for C7 (amended): parseLines on exLines yields exParsedOut, whose
started_at/ended_at are the min/max of the tracked (non-system) timestamps. -/
theorem parseFile_minmax_over_nonsystem_tracked_witness :
    (∃ m, exParsedOut.started_at = some m ∧
      jsMinOk m (JsonlParser.trackedTimestamps exLines)) ∧
    (∃ m, exParsedOut.ended_at = some m ∧
      jsMaxOk m (JsonlParser.trackedTimestamps exLines)) :=
  parseFile_minmax_over_nonsystem_tracked "f.jsonl" exLines exParsedOut (by decide)

namespace EmbeddingService

lemma batchInv_init (embedApi : String → Except String (List Int))
    (texts : List String) :
    batchInv embedApi texts (initBatchState texts.length) := by
  refine ⟨?_, ?_, ?_, ?_, ?_⟩
  · simp [initBatchState, batchInv]
  · simp [initBatchState]
  · simp [initBatchState]
  · intro i hi
    simp [initBatchState] at hi
  · intro i hi
    simp [initBatchState, List.getElem?_replicate, hi]

lemma batchInv_step (embedApi : String → Except String (List Int))
    (texts : List String) (workers : Nat) (s s' : BatchState)
    (hstep : BatchStep embedApi texts workers s s')
    (hinv : batchInv embedApi texts s) : batchInv embedApi texts s' := by
  obtain ⟨hlen, hcur, hnd, hpc, hres⟩ := hinv
  cases hstep with
  | take h1 h2 =>
    refine ⟨hlen, ?_, ?_, ?_, ?_⟩
    · show s.cursor + 1 ≤ texts.length
      omega
    · show (s.cursor :: s.pending).Nodup
      refine List.nodup_cons.mpr ⟨?_, hnd⟩
      intro hmem
      have := hpc _ hmem
      omega
    · intro i hi
      show i < s.cursor + 1
      have hi' : i ∈ s.cursor :: s.pending := hi
      rcases List.mem_cons.mp hi' with h | h
      · omega
      · have := hpc i h
        omega
    · intro i hi
      show s.results[i]? = some (if i < s.cursor + 1 ∧ i ∉ s.cursor :: s.pending
        then some (runEmbed embedApi (texts.getD i "")) else none)
      rw [hres i hi]
      have hiff : (i < s.cursor ∧ i ∉ s.pending) ↔
          (i < s.cursor + 1 ∧ i ∉ s.cursor :: s.pending) := by
        constructor
        · rintro ⟨ha, hb⟩
          refine ⟨by omega, ?_⟩
          intro hm
          rcases List.mem_cons.mp hm with h | h
          · omega
          · exact hb h
        · rintro ⟨ha, hb⟩
          have hne : i ≠ s.cursor := by
            intro he
            exact hb (by rw [he]; exact List.mem_cons_self _ _)
          exact ⟨by omega, fun hm => hb (List.mem_cons_of_mem _ hm)⟩
      simp only [hiff]
  | finish i hmem =>
    refine ⟨?_, hcur, ?_, ?_, ?_⟩
    · show (s.results.set i (some (runEmbed embedApi (texts.getD i "")))).length =
        texts.length
      rw [List.length_set]
      exact hlen
    · show (s.pending.erase i).Nodup
      exact hnd.erase i
    · intro j hj
      show j < s.cursor
      have hj' : j ∈ s.pending.erase i := hj
      exact hpc j (List.mem_of_mem_erase hj')
    · intro j hj
      show (s.results.set i (some (runEmbed embedApi (texts.getD i ""))))[j]? =
        some (if j < s.cursor ∧ j ∉ s.pending.erase i
          then some (runEmbed embedApi (texts.getD j "")) else none)
      rw [List.getElem?_set]
      by_cases hij : i = j
      · subst hij
        rw [if_pos rfl]
        have hilt : i < s.results.length := by
          rw [hlen]
          exact hj
        rw [if_pos hilt]
        have hcond : i < s.cursor ∧ i ∉ s.pending.erase i := by
          refine ⟨hpc i hmem, ?_⟩
          intro hm
          exact absurd (hnd.mem_erase_iff.mp hm).1 (by simp)
        rw [if_pos hcond]
      · rw [if_neg hij, hres j hj]
        have hiff : (j < s.cursor ∧ j ∉ s.pending) ↔
            (j < s.cursor ∧ j ∉ s.pending.erase i) := by
          constructor
          · rintro ⟨ha, hb⟩
            exact ⟨ha, fun hm => hb (List.mem_of_mem_erase hm)⟩
          · rintro ⟨ha, hb⟩
            refine ⟨ha, fun hm => hb ?_⟩
            exact hnd.mem_erase_iff.mpr ⟨fun hji => hij hji.symm, hm⟩
        simp only [hiff]

lemma batchInv_reaches (embedApi : String → Except String (List Int))
    (texts : List String) (workers : Nat) (s : BatchState)
    (h : batchReaches embedApi texts workers s) : batchInv embedApi texts s := by
  induction h with
  | refl => exact batchInv_init embedApi texts
  | tail hr hstep ih => exact batchInv_step _ _ _ _ _ hstep ih

lemma batchDone_results (embedApi : String → Except String (List Int))
    (texts : List String) (workers : Nat) (s : BatchState)
    (hreach : batchReaches embedApi texts workers s) (hdone : batchDone texts s) :
    s.results = texts.map (fun t => some (runEmbed embedApi t)) := by
  obtain ⟨hlen, _, _, _, hres⟩ := batchInv_reaches embedApi texts workers s hreach
  obtain ⟨hc, hp⟩ := hdone
  apply List.ext_getElem?
  intro i
  by_cases hi : i < texts.length
  · rw [hres i hi, List.getElem?_map]
    have hgd : texts.getD i "" = texts[i] := List.getD_eq_getElem texts "" hi
    have hcond : i < s.cursor ∧ i ∉ s.pending := by
      rw [hc, hp]
      exact ⟨hi, by simp⟩
    rw [if_pos hcond, hgd, List.getElem?_eq_getElem hi]
    rfl
  · have h1 : s.results[i]? = none := List.getElem?_eq_none (by omega)
    have h2 : (texts.map (fun t => some (runEmbed embedApi t)))[i]? = none :=
      List.getElem?_eq_none (by rw [List.length_map]; omega)
    rw [h1, h2]

lemma batch_seq_reach (embedApi : String → Except String (List Int))
    (texts : List String) (workers : Nat) (hw : 1 ≤ workers) :
    ∀ k, k ≤ texts.length → ∃ s, batchReaches embedApi texts workers s ∧
      s.cursor = k ∧ s.pending = [] := by
  intro k
  induction k with
  | zero =>
    intro _
    exact ⟨initBatchState texts.length, Relation.ReflTransGen.refl, rfl, rfl⟩
  | succ k ih =>
    intro hk
    obtain ⟨s, hreach, hc, hp⟩ := ih (by omega)
    have h1 : s.cursor < texts.length := by omega
    have h2 : s.pending.length < workers := by
      rw [hp]
      simpa using hw
    have step1 : BatchStep embedApi texts workers s
        { cursor := s.cursor + 1, pending := s.cursor :: s.pending,
          results := s.results } :=
      BatchStep.take s h1 h2
    have step2 : BatchStep embedApi texts workers
        { cursor := s.cursor + 1, pending := s.cursor :: s.pending,
          results := s.results }
        { cursor := s.cursor + 1, pending := (s.cursor :: s.pending).erase s.cursor,
          results := s.results.set s.cursor
            (some (runEmbed embedApi (texts.getD s.cursor ""))) } :=
      BatchStep.finish _ s.cursor (List.mem_cons_self _ _)
    refine ⟨_, Relation.ReflTransGen.tail (Relation.ReflTransGen.tail hreach step1) step2,
      ?_, ?_⟩
    · show s.cursor + 1 = k + 1
      omega
    · show (s.cursor :: s.pending).erase s.cursor = []
      rw [List.erase_cons_head]
      exact hp

lemma exists_batchDone (embedApi : String → Except String (List Int))
    (texts : List String) (concurrency : Nat) (hc : 1 ≤ concurrency) :
    ∃ s, batchReaches embedApi texts (numWorkers concurrency texts) s ∧
      batchDone texts s := by
  by_cases hn : texts.length = 0
  · refine ⟨initBatchState texts.length, Relation.ReflTransGen.refl, ?_, rfl⟩
    show (0 : Nat) = texts.length
    omega
  · have hw : 1 ≤ numWorkers concurrency texts := by
      rw [numWorkers]
      omega
    obtain ⟨s, hreach, hcur, hp⟩ := batch_seq_reach embedApi texts _ hw texts.length le_rfl
    exact ⟨s, hreach, hcur, hp⟩

end EmbeddingService

/-- C9: for every text list and concurrency >= 1, embedBatch's worker pool
terminates (a completed schedule exists), and EVERY completed schedule —
whatever the interleaving of take/finish steps, i.e. whatever the completion
order — fills the results array with exactly one result per input, the result
for text i at index i; a text whose embed call fails gets the 768-dimensional
all-zero vector with token_count 0 at its slot, and the other slots are the
ordinary embed results, unaffected. -/
theorem embedBatch_results_mirror_input (embedApi : String → Except String (List Int))
    (texts : List String) (concurrency : Nat) (hc : 1 ≤ concurrency) :
    (∃ s, EmbeddingService.batchReaches embedApi texts
        (EmbeddingService.numWorkers concurrency texts) s ∧
      EmbeddingService.batchDone texts s) ∧
    (∀ s, EmbeddingService.batchReaches embedApi texts
        (EmbeddingService.numWorkers concurrency texts) s →
      EmbeddingService.batchDone texts s →
      s.results = texts.map (fun t => some (EmbeddingService.runEmbed embedApi t))) ∧
    (∀ t e, embedApi t = Except.error e →
      EmbeddingService.runEmbed embedApi t =
        { embedding := List.replicate 768 0, token_count := 0 }) := by
  refine ⟨EmbeddingService.exists_batchDone embedApi texts concurrency hc, ?_, ?_⟩
  · intro s hr hd
    exact EmbeddingService.batchDone_results embedApi texts _ s hr hd
  · intro t e he
    rw [EmbeddingService.runEmbed, EmbeddingService.embed, he]
    rfl

/-- Witness for C9: the theorem applied to exTexts (where embedding "beta"
fails) with the embedApi fixture and concurrency 1. -/
theorem embedBatch_results_mirror_input_witness :
    (∃ s, EmbeddingService.batchReaches exEmbedApi exTexts
        (EmbeddingService.numWorkers 1 exTexts) s ∧
      EmbeddingService.batchDone exTexts s) ∧
    (∀ s, EmbeddingService.batchReaches exEmbedApi exTexts
        (EmbeddingService.numWorkers 1 exTexts) s →
      EmbeddingService.batchDone exTexts s →
      s.results = exTexts.map (fun t => some (EmbeddingService.runEmbed exEmbedApi t))) ∧
    (∀ t e, exEmbedApi t = Except.error e →
      EmbeddingService.runEmbed exEmbedApi t =
        { embedding := List.replicate 768 0, token_count := 0 }) :=
  embedBatch_results_mirror_input exEmbedApi exTexts 1 (by decide)
